import Mathlib

/-!
Verification of the `poweroutageanalysis` record-normalization pipeline.

The Python sources are shallowly embedded as Lean functions:

* Strings are `List Char`; Python `str.strip`/`str.lower`/`str.replace`/
  `str.split`/`int(...)` become explicit recursive functions below.
* `util.py` : `clean_num_string`, `check_for_na_value`, `remove_commas`,
  `remove_approx`, `extract_highest_from_range`.
* `ai.py` : the inference client is a black box behind a narrow contract
  (the spec treats it so), modelled by the already-parsed structured answer
  it returned (`Option` = parsed / unparseable-or-empty); `fix_number`,
  `add_start_datetime`, `add_restored_datetime` embed the code around it.
* `poweroutageanalysis.py` : region/utility extraction, the per-field
  cleaner-with-fallback, the augmentation phases, the duration computation
  and the year-range file-discovery loop.
* Fallible Python code (an uncaught exception) becomes `Except Unit`.
-/

/-! ## Character and string primitives (Python `str` semantics, ASCII) -/

/-- Whitespace stripped by Python `str.strip()` (ASCII part). -/
def isSpc (c : Char) : Bool :=
  c = ' ' || c = '\t' || c = '\n' || c = '\r' || c = '\x0B' || c = '\x0C'

/-- Python `str.lower()` on an ASCII character. -/
def lowerChar (c : Char) : Char :=
  if 'A' ≤ c ∧ c ≤ 'Z' then Char.ofNat (c.toNat + 32) else c

/-- Python `str.lower()` on a string. -/
def toLowerL (l : List Char) : List Char := l.map lowerChar

/-- Strip leading whitespace. -/
def ltrim (l : List Char) : List Char := l.dropWhile isSpc

/-- Strip trailing whitespace. -/
def rtrim (l : List Char) : List Char := (l.reverse.dropWhile isSpc).reverse

/-- Python `str.strip()`. -/
def trim (l : List Char) : List Char := rtrim (ltrim l)

/-- ASCII decimal digit test. -/
def myIsDigit (c : Char) : Bool := ('0' ≤ c) && (c ≤ '9')

/-- Numeric value of an ASCII digit. -/
def digitVal (c : Char) : Nat := c.toNat - 48

/-- Core of Python `int(...)` digit parsing: a nonempty digit string in
which single underscores may separate digits.  The flag records whether
the previous character was a digit (so an underscore is legal and the
string may end). -/
def parseDigitsCore : Bool → Nat → List Char → Option Nat
  | ok, acc, [] => if ok then some acc else none
  | ok, acc, c :: rest =>
    if myIsDigit c then parseDigitsCore true (acc * 10 + digitVal c) rest
    else if ok && c = '_' then parseDigitsCore false acc rest
    else none

/-- Parse a digit run per Python `int(...)` (digits, internal underscores). -/
def parseDigits (l : List Char) : Option Nat := parseDigitsCore false 0 l

/-- Python `int(s)` for base 10: strips whitespace, allows one optional
sign, then a digit run; `none` models the `ValueError`. -/
def pythonInt (l : List Char) : Option Int :=
  match trim l with
  | [] => none
  | c :: rest =>
    if c = '-' then (parseDigits rest).map (fun n => -Int.ofNat n)
    else if c = '+' then (parseDigits rest).map (fun n => Int.ofNat n)
    else (parseDigits (c :: rest)).map (fun n => Int.ofNat n)

/-- Python `s.split("-")`. -/
def splitDash : List Char → List (List Char)
  | [] => [[]]
  | c :: rest =>
    if c = '-' then [] :: splitDash rest
    else
      match splitDash rest with
      | s :: ss => (c :: s) :: ss
      | [] => [[c]]

/-- Last element of a list of segments (`[-1]` on the nonempty result of
`split`). -/
def lastD : List (List Char) → List Char
  | [] => []
  | [s] => s
  | _ :: s :: ss => lastD (s :: ss)

/-- Does `p` lead the second list (prefix test, used for substring search)? -/
def leadsWith : List Char → List Char → Bool
  | [], _ => true
  | _ :: _, [] => false
  | p :: ps, c :: cs => p = c && leadsWith ps cs

/-- The literal removed by `remove_approx`. -/
def approxPattern : List Char := ['A', 'p', 'p', 'r', 'o', 'x', '.']

/-- Single left-to-right pass of Python `str.replace("Approx.", "")`,
with explicit fuel so that it is structurally recursive (the fuel is
always at least the length of the list, see `remove_approx`). -/
def remove_approxF : Nat → List Char → List Char
  | 0, l => l
  | _ + 1, [] => []
  | fuel + 1, c :: rest =>
    if leadsWith approxPattern (c :: rest) then remove_approxF fuel (rest.drop 6)
    else c :: remove_approxF fuel rest

/-! ## util.py -/

/-- `util.remove_approx`: `value.replace("Approx.", "")`. -/
def remove_approx (l : List Char) : List Char := remove_approxF l.length l

/-- `util.remove_commas`: `value.replace(",", "")`. -/
def remove_commas (l : List Char) : List Char := l.filter (fun c => c != ',')

/-- `util.extract_highest_from_range`: `value.split("-")[-1]`. -/
def extract_highest_from_range (l : List Char) : List Char := lastD (splitDash l)

/-- The "not available" sentinel strings of `util.check_for_na_value`. -/
def naSentinels : List (List Char) :=
  [['n', 'a'], ['n', '/', 'a'], ['n', 'o', 'n', 'e'], []]

/-- `util.check_for_na_value`: `none` when `value.lower()` is in
`["na", "n/a", "none", ""]`, else the value itself. -/
def check_for_na_value (v : List Char) : Option (List Char) :=
  if toLowerL v ∈ naSentinels then none else some v

/-- `util.clean_num_string`.  `Except.error ()` models the `ValueError`
raised by `int(...)`; `Except.ok none` is the Python `None` return. -/
def clean_num_string (l : List Char) : Except Unit (Option Int) :=
  let s1 := remove_commas (trim l)
  let s2 := remove_approx (trim s1)
  let s3 := extract_highest_from_range (trim s2)
  match check_for_na_value (trim s3) with
  | none => Except.ok none
  | some v =>
    match pythonInt v with
    | some n => Except.ok (some n)
    | none => Except.error ()

/-- The fully cleaned remainder that `clean_num_string` hands to
`check_for_na_value` / `int(...)` (the same `let` chain as above). -/
def cleaned_remainder (l : List Char) : List Char :=
  trim (extract_highest_from_range (trim (remove_approx (trim (remove_commas (trim l))))))

/-! ## ai.py and types.py -/

/-- A parsed timezone-free ISO datetime (`datetime.fromisoformat` output),
at second granularity. -/
structure DateTime where
  year : Int
  month : Nat
  day : Nat
  hour : Nat
  minute : Nat
  second : Nat
deriving DecidableEq

/-- `types.PowerOutageEvent`.  The two derived datetimes are stored in
parsed form (the code stores their ISO strings and reparses them with
`fromisoformat` in `get_duration_minutes`). -/
structure PowerOutageEvent where
  date : List Char
  time : Option (List Char) := none
  restoration_time : Option (List Char) := none
  outage_type : List Char
  region : Option (List Char) := none
  area_affected : Option (List Char) := none
  utility_name : Option (List Char) := none
  demand_loss_mw : Option Int := none
  customers_affected : Option Int := none
  start_datetime : Option DateTime := none
  restored_datetime : Option DateTime := none
  duration_minutes : Option Int := none
deriving DecidableEq

/-- `PowerOutageAI.fix_number`, given the structured answer the service
returned (`some n` = `message.parsed.number`, `none` = unparseable/empty
answer): `-1` is translated to `None`, anything else passes through. -/
def fix_number (parsed : Option Int) : Option Int :=
  match parsed with
  | some n => if n = -1 then none else some n
  | none => none

/-- `PowerOutageAI.add_start_datetime`, given the structured answer the
service returned for this event: on a parsed answer the field is set, on
failure the event is returned unchanged (only logged). -/
def add_start_datetime (parsed : Option DateTime) (e : PowerOutageEvent) :
    PowerOutageEvent :=
  match parsed with
  | some dt => { e with start_datetime := some dt }
  | none => e

/-- `PowerOutageAI.add_restored_datetime`.  The code first runs
`check_for_na_value(event.restoration_time)`; when `restoration_time` is
`None` that call raises `AttributeError` (`None` has no `.lower()`),
modelled by `Except.error ()`.  On a sentinel match the event is returned
untouched without consulting the service; otherwise the parsed answer is
applied as in `add_start_datetime`. -/
def add_restored_datetime (parsed : Option DateTime) (e : PowerOutageEvent) :
    Except Unit PowerOutageEvent :=
  match e.restoration_time with
  | none => Except.error ()
  | some rt =>
    match check_for_na_value rt with
    | none => Except.ok e
    | some _ =>
      match parsed with
      | some dt => Except.ok { e with restored_datetime := some dt }
      | none => Except.ok e

/-- The pure result of `add_restored_datetime` on an event whose
`restoration_time` is present (the non-crashing case). -/
def restoredApply (parsed : Option DateTime) (e : PowerOutageEvent) :
    PowerOutageEvent :=
  match e.restoration_time with
  | none => e
  | some rt =>
    match check_for_na_value rt with
    | none => e
    | some _ =>
      match parsed with
      | some dt => { e with restored_datetime := some dt }
      | none => e

/-! ## poweroutageanalysis.py -/

/-- Days since 1970-01-01 of a proleptic-Gregorian civil date
(the arithmetic underlying Python `datetime` subtraction). -/
def daysFromCivil (y m d : Int) : Int :=
  let y2 := if m ≤ 2 then y - 1 else y
  let era := Int.fdiv y2 400
  let yoe := y2 - era * 400
  let mp := if 2 < m then m - 3 else m + 9
  let doy := Int.fdiv (153 * mp + 2) 5 + d - 1
  let doe := yoe * 365 + Int.fdiv yoe 4 - Int.fdiv yoe 100 + doy
  era * 146097 + doe - 719468

/-- Seconds since the epoch of a parsed datetime. -/
def toSeconds (dt : DateTime) : Int :=
  daysFromCivil dt.year dt.month dt.day * 86400 +
    dt.hour * 3600 + dt.minute * 60 + dt.second

/-- `PowerOutageAnalysis.get_duration_minutes`: when both datetimes are
present, `duration_minutes := int((end - start).total_seconds() / 60)`;
Python `int(...)` on a float truncates toward zero, hence `Int.tdiv`.
Otherwise the event is returned unchanged. -/
def get_duration_minutes (e : PowerOutageEvent) : PowerOutageEvent :=
  match e.start_datetime, e.restored_datetime with
  | some s, some r =>
    { e with duration_minutes := some (Int.tdiv (toSeconds r - toSeconds s) 60) }
  | _, _ => e

/-- One numeric field of the Record Builder
(`poweroutageanalysis.py:155-167` and `240-252`): try the deterministic
cleaner; on its `ValueError` fall back to `fix_number` with the service's
answer for this raw string.  The Bool records whether the fallback ran. -/
def clean_number_with_fallback (serviceAnswer : Option Int) (raw : List Char) :
    Option Int × Bool :=
  match clean_num_string raw with
  | Except.ok v => (v, false)
  | Except.error _ => (fix_number serviceAnswer, true)

/-- The `re.search(r"\(([A-Z]{2,6})\)$", u)` step of the Record Builder.
Because the pattern is end-anchored and contains neither `(` nor `)`
inside the group, a match exists iff the string ends in `)` immediately
preceded by a maximal run of 2-6 uppercase letters preceded by `(`;
at most one such suffix exists (a longer candidate group would have to
contain the inner `(`, which is not an uppercase letter).  Returns the
prefix before `match.start()` together with the captured letters. -/
def findRegion (u : List Char) : Option (List Char × List Char) :=
  match u.reverse with
  | [] => none
  | c :: rest =>
    if c = ')' then
      let letters := rest.takeWhile (fun c => 'A' ≤ c && c ≤ 'Z')
      if 2 ≤ letters.length ∧ letters.length ≤ 6 then
        match rest.drop letters.length with
        | [] => none
        | c2 :: before =>
          if c2 = '(' then some (before.reverse, letters.reverse) else none
      else none
    else none

/-- The region/utility split of `process_csv_file` (lines 173-180) and the
no-discrete-region branch of `process_xls_file` (lines 263-270): strip the
raw utility name; if nonempty and ending in `)`, search for the trailing
parenthetical region code; on a match, the letters become the region and
the prefix is stripped again. Returns `(region, utility_name)`. -/
def parse_region_utility (raw : List Char) :
    Option (List Char) × Option (List Char) :=
  let u := trim raw
  if u ≠ [] ∧ u.getLast? = some ')' then
    match findRegion u with
    | some (before, letters) => (some letters, some (trim before))
    | none => (none, some u)
  else (none, some u)

/-- Start-datetime phase of `augment_data_with_ai`: every record gets one
`add_start_datetime` call; `o1 i` is the structured answer the service
returned for the `i`-th record.  The phase completes before the next
phase starts (the code awaits the whole `TaskGroup`). -/
def startPhase (o1 : Nat → Option DateTime) : Nat → List PowerOutageEvent →
    List PowerOutageEvent
  | _, [] => []
  | i, e :: es => add_start_datetime (o1 i) e :: startPhase o1 (i + 1) es

/-- Restoration-datetime phase of `augment_data_with_ai`; an
`AttributeError` from any record's sentinel check aborts the whole phase
(the `TaskGroup` propagates it). -/
def restorePhase (o2 : Nat → Option DateTime) : Nat → List PowerOutageEvent →
    Except Unit (List PowerOutageEvent)
  | _, [] => Except.ok []
  | i, e :: es => do
    let e' ← add_restored_datetime (o2 i) e
    let es' ← restorePhase o2 (i + 1) es
    Except.ok (e' :: es')

/-- `PowerOutageAnalysis.augment_data_with_ai`: start-datetime phase over
all records, then restoration-datetime phase, then the sequential
duration pass rebuilding `self.data`. -/
def augment_data_with_ai (o1 o2 : Nat → Option DateTime)
    (data : List PowerOutageEvent) : Except Unit (List PowerOutageEvent) := do
  let p1 := startPhase o1 0 data
  let p2 ← restorePhase o2 0 p1
  Except.ok (p2.map get_duration_minutes)

/-- Which adapter `load_data` chose for a year. -/
inductive SourceKind
  | xls
  | csv
deriving DecidableEq

/-- `f"{year}_Annual_Summary.xls"`. -/
def xlsName (year : Nat) : String := toString year ++ "_Annual_Summary.xls"

/-- `f"{year}_Annual_Summary_Converted.csv"`. -/
def csvName (year : Nat) : String :=
  toString year ++ "_Annual_Summary_Converted.csv"

/-- `PowerOutageAnalysis.load_data` (lines 125-133): per configured year,
probe for the XLS file, then the CSV file, and raise `FileNotFoundError`
when neither exists.  `files` is the `os.listdir` result; the processed
outcome records which adapter ran for each year. -/
def load_data (files : List String) : List Nat →
    Except String (List (Nat × SourceKind))
  | [] => Except.ok []
  | y :: ys =>
    if xlsName y ∈ files then
      match load_data files ys with
      | Except.ok r => Except.ok ((y, SourceKind.xls) :: r)
      | Except.error e => Except.error e
    else if csvName y ∈ files then
      match load_data files ys with
      | Except.ok r => Except.ok ((y, SourceKind.csv) :: r)
      | Except.error e => Except.error e
    else Except.error ("No data file found for " ++ toString y)

/-- `PowerOutageAnalysis.analyze_power_outages`: `load_data`, then
augmentation, then `output_results`.  An uncaught exception from
`load_data` aborts the run before any output file is opened; `Except.ok`
is the run that reaches `output_results`. -/
def run_pipeline (files : List String) (years : List Nat) :
    Except String Unit :=
  match load_data files years with
  | Except.error e => Except.error e
  | Except.ok _ => Except.ok ()

/-- The non-derived fields of two records coincide (everything the
Augmentation Stage must not touch). -/
def sameNonDerived (a b : PowerOutageEvent) : Prop :=
  a.date = b.date ∧ a.time = b.time ∧ a.restoration_time = b.restoration_time ∧
  a.outage_type = b.outage_type ∧ a.region = b.region ∧
  a.area_affected = b.area_affected ∧ a.utility_name = b.utility_name ∧
  a.demand_loss_mw = b.demand_loss_mw ∧
  a.customers_affected = b.customers_affected

/-- The pure result of the restoration phase in the non-crashing case
(every record's `restoration_time` present): one `restoredApply` per
record with the per-record oracle answer. -/
def restorePhasePure (o2 : Nat → Option DateTime) : Nat →
    List PowerOutageEvent → List PowerOutageEvent
  | _, [] => []
  | i, e :: es => restoredApply (o2 i) e :: restorePhasePure o2 (i + 1) es

/-- The decorated-numeral input class of claim C4: an optional "Approx. "
marker, an optional hyphen-separated lower bound, and an upper bound, the
bounds written with digits and thousands-separator commas. -/
structure RangeNumeral where
  approx : Bool
  lo : Option (List Char)
  hi : List Char

/-- Well-formedness of the decorated numeral: the bounds consist of
digits and commas, with at least one digit in the upper bound. -/
def WFRange (r : RangeNumeral) : Prop :=
  (∀ c ∈ r.hi, myIsDigit c = true ∨ c = ',') ∧
  (∃ c ∈ r.hi, myIsDigit c = true) ∧
  (∀ c ∈ r.lo.getD [], myIsDigit c = true ∨ c = ',')

/-- Render the decorated numeral as its raw string. -/
def renderRange (r : RangeNumeral) : List Char :=
  (if r.approx then "Approx. ".data else []) ++
    (match r.lo with
     | some lo => lo ++ '-' :: r.hi
     | none => r.hi)

/-! ## List toolbox -/

theorem takeWhile_app_all {α : Type} {p : α → Bool} {xs : List α} (ys : List α)
    (h : ∀ x ∈ xs, p x = true) :
    (xs ++ ys).takeWhile p = xs ++ ys.takeWhile p := by
  induction xs with
  | nil => simp
  | cons c rest ih =>
    simp only [List.cons_append, List.takeWhile_cons]
    rw [h c (by simp)]
    simp [ih fun x hx => h x (by simp [hx])]

theorem takeWhile_app_stop {α : Type} {p : α → Bool} {xs : List α} {x : α}
    (ys : List α) (hx : x ∈ xs) (hpx : p x = false) :
    (xs ++ ys).takeWhile p = xs.takeWhile p := by
  induction xs with
  | nil => cases hx
  | cons c rest ih =>
    rcases List.mem_cons.mp hx with rfl | hmem
    · simp [List.takeWhile_cons, hpx]
    · cases hc : p c with
      | true => simp [List.takeWhile_cons, hc, ih hmem]
      | false => simp [List.takeWhile_cons, hc]

theorem dropWhile_app_all {α : Type} {p : α → Bool} {xs : List α} (ys : List α)
    (h : ∀ x ∈ xs, p x = true) :
    (xs ++ ys).dropWhile p = ys.dropWhile p := by
  induction xs with
  | nil => simp
  | cons c rest ih =>
    simp only [List.cons_append, List.dropWhile_cons]
    rw [h c (by simp)]
    simp [ih fun x hx => h x (by simp [hx])]

theorem dropWhile_app_ne {α : Type} {p : α → Bool} {xs : List α} (ys : List α)
    (h : xs.dropWhile p ≠ []) :
    (xs ++ ys).dropWhile p = xs.dropWhile p ++ ys := by
  induction xs with
  | nil => exact absurd rfl h
  | cons c rest ih =>
    cases hc : p c with
    | true =>
      simp only [List.dropWhile_cons, hc, if_true] at h
      simp [List.dropWhile_cons, hc, ih h]
    | false => simp [List.dropWhile_cons, hc]

theorem dropWhile_head_false {α : Type} {p : α → Bool} {l : List α} {c : α}
    {cs : List α} (h : l.dropWhile p = c :: cs) : p c = false := by
  induction l with
  | nil => cases h
  | cons a rest ih =>
    rw [List.dropWhile_cons] at h
    by_cases ha : p a = true
    · rw [ha] at h; simp only [if_true] at h; exact ih h
    · rw [Bool.eq_false_iff.mpr ha] at h
      simp only [Bool.false_eq_true, if_false] at h
      cases h
      exact Bool.eq_false_iff.mpr ha

theorem dropWhile_subset' {α : Type} {p : α → Bool} {l : List α} {x : α}
    (h : x ∈ l.dropWhile p) : x ∈ l := by
  induction l with
  | nil => cases h
  | cons a rest ih =>
    rw [List.dropWhile_cons] at h
    by_cases ha : p a = true
    · rw [ha] at h; simp only [if_true] at h; exact List.mem_cons_of_mem a (ih h)
    · rw [Bool.eq_false_iff.mpr ha] at h; simpa using h

theorem takeWhile_all {α : Type} {p : α → Bool} {l : List α}
    (h : ∀ x ∈ l, p x = true) : l.takeWhile p = l := by
  induction l with
  | nil => rfl
  | cons c rest ih =>
    rw [List.takeWhile_cons, h c (by simp)]
    simp [ih fun x hx => h x (by simp [hx])]

theorem takeWhile_dropWhile_comm {α : Type} {p q : α → Bool}
    (hpq : ∀ c, q c = true → p c = true) (l : List α) :
    (l.dropWhile q).takeWhile p = (l.takeWhile p).dropWhile q := by
  induction l with
  | nil => rfl
  | cons c rest ih =>
    cases hq : q c with
    | true =>
      simp [List.dropWhile_cons, List.takeWhile_cons, hq, hpq c hq, ih]
    | false =>
      cases hp : p c with
      | true => simp [List.dropWhile_cons, List.takeWhile_cons, hq, hp]
      | false => simp [List.takeWhile_cons, List.dropWhile_cons, hq, hp]

/-! ## Whitespace trimming lemmas -/

theorem ltrim_cons_nonws {c : Char} (l : List Char) (hc : isSpc c = false) :
    ltrim (c :: l) = c :: l := by
  simp [ltrim, List.dropWhile_cons, hc]

theorem ltrim_all_nonws {l : List Char} (h : ∀ c ∈ l, isSpc c = false) :
    ltrim l = l := by
  cases l with
  | nil => rfl
  | cons c rest => exact ltrim_cons_nonws rest (h c (by simp))

theorem rtrim_all_nonws {l : List Char} (h : ∀ c ∈ l, isSpc c = false) :
    rtrim l = l := by
  have h2 : l.reverse.dropWhile isSpc = l.reverse := by
    cases hr : l.reverse with
    | nil => rfl
    | cons c rest =>
      have hc : c ∈ l := by
        have h3 : c ∈ l.reverse := by rw [hr]; simp
        simpa using h3
      rw [List.dropWhile_cons, h c hc]
      simp
  simp [rtrim, h2]

theorem trim_all_nonws {l : List Char} (h : ∀ c ∈ l, isSpc c = false) :
    trim l = l := by
  rw [trim, ltrim_all_nonws h, rtrim_all_nonws h]

theorem ltrim_app_ws {xs : List Char} (ys : List Char)
    (h : ∀ c ∈ xs, isSpc c = true) : ltrim (xs ++ ys) = ltrim ys :=
  dropWhile_app_all ys h

theorem ltrim_app_ne {xs : List Char} (ys : List Char) (h : ltrim xs ≠ []) :
    ltrim (xs ++ ys) = ltrim xs ++ ys :=
  dropWhile_app_ne ys h

theorem rtrim_app_ne {xs ys : List Char} (h : rtrim ys ≠ []) :
    rtrim (xs ++ ys) = xs ++ rtrim ys := by
  unfold rtrim at *
  have h2 : ys.reverse.dropWhile isSpc ≠ [] := by
    intro he
    rw [he] at h
    exact h rfl
  rw [List.reverse_append, dropWhile_app_ne _ h2]
  simp

theorem rtrim_app_ws {xs ys : List Char} (h : ∀ c ∈ ys, isSpc c = true) :
    rtrim (xs ++ ys) = rtrim xs := by
  unfold rtrim
  rw [List.reverse_append, dropWhile_app_all _ (fun c hc => h c (by simpa using hc))]

theorem rtrim_cons_nonws {c : Char} {l : List Char} (hc : isSpc c = false) :
    rtrim (c :: l) = c :: rtrim l := by
  unfold rtrim
  rw [show (c :: l).reverse = l.reverse ++ [c] from by simp]
  by_cases h0 : l.reverse.dropWhile isSpc = []
  · rw [dropWhile_app_all _ (fun x hx => List.dropWhile_eq_nil_iff.mp h0 x hx), h0]
    simp [List.dropWhile_cons, hc]
  · rw [dropWhile_app_ne _ h0]
    simp

theorem rtrim_idem (l : List Char) : rtrim (rtrim l) = rtrim l := by
  unfold rtrim
  rw [List.reverse_reverse]
  congr 1
  cases hd : l.reverse.dropWhile isSpc with
  | nil => rfl
  | cons c rest => simp [List.dropWhile_cons, dropWhile_head_false hd]

theorem ltrim_decomp (l : List Char) :
    ∃ P, l = P ++ ltrim l ∧ ∀ c ∈ P, isSpc c = true :=
  ⟨l.takeWhile isSpc, (List.takeWhile_append_dropWhile isSpc l).symm,
    fun _ hc => List.mem_takeWhile_imp hc⟩

theorem rtrim_decomp (l : List Char) :
    ∃ S, l = rtrim l ++ S ∧ ∀ c ∈ S, isSpc c = true := by
  refine ⟨(l.reverse.takeWhile isSpc).reverse, ?_, ?_⟩
  · calc l = l.reverse.reverse := (List.reverse_reverse l).symm
    _ = (l.reverse.takeWhile isSpc ++ l.reverse.dropWhile isSpc).reverse := by
        rw [List.takeWhile_append_dropWhile]
    _ = rtrim l ++ (l.reverse.takeWhile isSpc).reverse := by
        rw [List.reverse_append]; rfl
  · intro c hc
    exact List.mem_takeWhile_imp (by simpa using hc)

theorem trim_decomp (l : List Char) :
    ∃ P S, l = P ++ trim l ++ S ∧ (∀ c ∈ P, isSpc c = true) ∧
      (∀ c ∈ S, isSpc c = true) := by
  obtain ⟨P, hP, hPw⟩ := ltrim_decomp l
  obtain ⟨S, hS, hSw⟩ := rtrim_decomp (ltrim l)
  refine ⟨P, S, ?_, hPw, hSw⟩
  calc l = P ++ ltrim l := hP
  _ = P ++ (trim l ++ S) := by rw [trim]; rw [← hS]
  _ = P ++ trim l ++ S := (List.append_assoc P (trim l) S).symm

theorem ltrim_trim (l : List Char) : ltrim (trim l) = trim l := by
  cases ht : trim l with
  | nil => rfl
  | cons c rest =>
    refine ltrim_cons_nonws rest ?_
    obtain ⟨S, hS, _⟩ := rtrim_decomp (ltrim l)
    have hl : l.dropWhile isSpc = c :: (rest ++ S) := by
      have : ltrim l = (c :: rest) ++ S := by
        rw [← ht]
        exact hS
      simpa [ltrim] using this
    exact dropWhile_head_false hl

theorem rtrim_trim (l : List Char) : rtrim (trim l) = trim l := by
  rw [trim, rtrim_idem]

theorem trim_trim (l : List Char) : trim (trim l) = trim l := by
  rw [show trim (trim l) = rtrim (ltrim (trim l)) from rfl, ltrim_trim, rtrim_trim]

theorem mem_ltrim {l : List Char} {c : Char} (h : c ∈ ltrim l) : c ∈ l :=
  dropWhile_subset' h

theorem mem_rtrim {l : List Char} {c : Char} (h : c ∈ rtrim l) : c ∈ l := by
  unfold rtrim at h
  have h2 : c ∈ l.reverse.dropWhile isSpc := by simpa using h
  simpa using dropWhile_subset' h2

theorem mem_trim {l : List Char} {c : Char} (h : c ∈ trim l) : c ∈ l :=
  mem_ltrim (mem_rtrim h)

theorem trim_app_mid {a b : List Char} {c : Char} (hc : isSpc c = false) :
    trim (a ++ c :: b) = ltrim a ++ c :: rtrim b := by
  have h1 : ltrim (a ++ c :: b) = ltrim a ++ c :: b := by
    by_cases h0 : ltrim a = []
    · rw [ltrim_app_ws _ (fun x hx => List.dropWhile_eq_nil_iff.mp h0 x hx), h0,
        List.nil_append, ltrim_cons_nonws b hc]
    · rw [ltrim_app_ne _ h0]
  have h2 : rtrim (c :: b) ≠ [] := by
    rw [rtrim_cons_nonws hc]
    simp
  rw [trim, h1, rtrim_app_ne h2, rtrim_cons_nonws hc]

/-! ## `split("-")[-1]` lemmas -/

theorem splitDash_ne_nil (l : List Char) : splitDash l ≠ [] := by
  cases l with
  | nil => simp [splitDash]
  | cons c rest =>
    by_cases hc : c = '-'
    · simp [splitDash, hc]
    · cases h : splitDash rest with
      | nil => simp [splitDash, hc, h]
      | cons s ss => simp [splitDash, hc, h]

theorem lastD_of_ne_nil {ss : List (List Char)} (x : List Char) (h : ss ≠ []) :
    lastD (x :: ss) = lastD ss := by
  cases ss with
  | nil => exact absurd rfl h
  | cons y ys => rfl

theorem no_dash_splitDash {l : List Char} (h : ('-' : Char) ∉ l) :
    splitDash l = [l] := by
  induction l with
  | nil => rfl
  | cons c rest ih =>
    have hc : ¬c = '-' := fun he => h (he ▸ List.mem_cons_self c rest)
    have hr : ('-' : Char) ∉ rest := fun hm => h (List.mem_cons_of_mem c hm)
    simp [splitDash, hc, ih hr]

theorem dash_splitDash_len {l : List Char} (h : ('-' : Char) ∈ l) :
    2 ≤ (splitDash l).length := by
  induction l with
  | nil => cases h
  | cons c rest ih =>
    by_cases hc : c = '-'
    · subst hc
      rw [show splitDash ('-' :: rest) = [] :: splitDash rest from by
        simp [splitDash]]
      have h2 : 0 < (splitDash rest).length :=
        List.length_pos.mpr (splitDash_ne_nil rest)
      simp only [List.length_cons]
      omega
    · have hr : ('-' : Char) ∈ rest := by
        rcases List.mem_cons.mp h with he | hm
        · exact absurd he.symm hc
        · exact hm
      cases hs : splitDash rest with
      | nil => exact absurd hs (splitDash_ne_nil rest)
      | cons s ss =>
        have h2 := ih hr
        rw [hs] at h2
        simp only [List.length_cons] at h2
        rw [show splitDash (c :: rest) = (c :: s) :: ss from by
          simp [splitDash, hc, hs]]
        simp only [List.length_cons]
        omega

theorem extract_eq_revTake (l : List Char) :
    extract_highest_from_range l =
      (l.reverse.takeWhile (fun c => c != '-')).reverse := by
  induction l with
  | nil => rfl
  | cons c rest ih =>
    by_cases hc : c = '-'
    · subst hc
      have h1 : extract_highest_from_range ('-' :: rest) =
          extract_highest_from_range rest := by
        unfold extract_highest_from_range
        rw [show splitDash ('-' :: rest) = [] :: splitDash rest from by
          simp [splitDash]]
        exact lastD_of_ne_nil [] (splitDash_ne_nil rest)
      rw [h1, ih]
      by_cases hd : ('-' : Char) ∈ rest
      · congr 1
        rw [show ('-' :: rest).reverse = rest.reverse ++ ['-'] from by simp]
        exact (takeWhile_app_stop _ (by simpa using hd) (by simp)).symm
      · have hall : ∀ x ∈ rest.reverse, (fun c => c != '-') x = true := by
          intro x hx
          have hxm : x ∈ rest := by simpa using hx
          simp only [bne_iff_ne, ne_eq]
          exact fun he => hd (he ▸ hxm)
        rw [show ('-' :: rest).reverse = rest.reverse ++ ['-'] from by simp,
          takeWhile_app_all _ hall, takeWhile_all hall]
        simp
    · by_cases hd : ('-' : Char) ∈ rest
      · cases hs : splitDash rest with
        | nil => exact absurd hs (splitDash_ne_nil rest)
        | cons s ss =>
          have hss : ss ≠ [] := by
            have h2 := dash_splitDash_len hd
            rw [hs] at h2
            simp only [List.length_cons] at h2
            intro he
            subst he
            simp at h2
          have h1 : extract_highest_from_range (c :: rest) =
              extract_highest_from_range rest := by
            unfold extract_highest_from_range
            rw [show splitDash (c :: rest) = (c :: s) :: ss from by
              simp [splitDash, hc, hs], hs]
            rw [lastD_of_ne_nil _ hss, lastD_of_ne_nil _ hss]
          rw [h1, ih]
          congr 1
          rw [show (c :: rest).reverse = rest.reverse ++ [c] from by simp]
          exact (takeWhile_app_stop _ (by simpa using hd) (by simp)).symm
      · have hnd : ('-' : Char) ∉ c :: rest := by
          intro hm
          rcases List.mem_cons.mp hm with he | hm2
          · exact hc he.symm
          · exact hd hm2
        rw [show extract_highest_from_range (c :: rest) = c :: rest from by
          unfold extract_highest_from_range
          rw [no_dash_splitDash hnd]
          rfl]
        have hall : ∀ x ∈ (c :: rest).reverse, (fun c => c != '-') x = true := by
          intro x hx
          have hxm : x ∈ c :: rest := List.mem_reverse.mp hx
          simp only [bne_iff_ne, ne_eq]
          exact fun he => hnd (he ▸ hxm)
        rw [takeWhile_all hall, List.reverse_reverse]

theorem extract_no_dash {l : List Char} (h : ('-' : Char) ∉ l) :
    extract_highest_from_range l = l := by
  unfold extract_highest_from_range
  rw [no_dash_splitDash h]
  rfl

theorem extract_app_dash {z w : List Char} (h : ('-' : Char) ∉ w) :
    extract_highest_from_range (z ++ '-' :: w) = w := by
  rw [extract_eq_revTake]
  rw [show (z ++ '-' :: w).reverse = w.reverse ++ '-' :: z.reverse from by simp]
  have hall : ∀ x ∈ w.reverse, (fun c => c != '-') x = true := by
    intro x hx
    have hxm : x ∈ w := by simpa using hx
    simp only [bne_iff_ne, ne_eq]
    exact fun he => h (he ▸ hxm)
  rw [takeWhile_app_all _ hall]
  simp [List.takeWhile_cons]

theorem mem_extract {l : List Char} {c : Char}
    (h : c ∈ extract_highest_from_range l) : c ∈ l ∧ c ≠ '-' := by
  rw [extract_eq_revTake] at h
  have h2 : c ∈ l.reverse.takeWhile (fun c => c != '-') := by simpa using h
  refine ⟨by simpa using List.takeWhile_subset _ h2, ?_⟩
  have h3 := List.mem_takeWhile_imp h2
  simpa [bne_iff_ne] using h3

theorem dash_decomp {l : List Char} (h : ('-' : Char) ∈ l) :
    ∃ a b, l = a ++ '-' :: b ∧ ('-' : Char) ∉ b := by
  induction l with
  | nil => cases h
  | cons c rest ih =>
    by_cases hd : ('-' : Char) ∈ rest
    · obtain ⟨a, b, hab, hnb⟩ := ih hd
      exact ⟨c :: a, b, by rw [hab]; rfl, hnb⟩
    · rcases List.mem_cons.mp h with he | hm
      · exact ⟨[], rest, by rw [← he]; simp, hd⟩
      · exact absurd hm hd

/-! ## `remove_approx` lemmas -/

theorem remove_approxF_invariant :
    ∀ (f g : Nat) (l : List Char), l.length ≤ f → l.length ≤ g →
      remove_approxF f l = remove_approxF g l := by
  intro f
  induction f with
  | zero =>
    intro g l hf _
    have h0 : l = [] := List.length_eq_zero.mp (Nat.le_zero.mp hf)
    subst h0
    cases g <;> rfl
  | succ f ih =>
    intro g l hf hg
    cases l with
    | nil => cases g <;> rfl
    | cons c rest =>
      cases g with
      | zero => simp at hg
      | succ g' =>
        simp only [List.length_cons, Nat.succ_le_succ_iff] at hf hg
        have hd : (rest.drop 6).length ≤ rest.length := by
          rw [List.length_drop]
          omega
        by_cases hm : leadsWith approxPattern (c :: rest) = true
        · rw [show remove_approxF (f + 1) (c :: rest)
              = remove_approxF f (rest.drop 6) from by simp [remove_approxF, hm],
            show remove_approxF (g' + 1) (c :: rest)
              = remove_approxF g' (rest.drop 6) from by simp [remove_approxF, hm]]
          exact ih g' _ (hd.trans hf) (hd.trans hg)
        · rw [show remove_approxF (f + 1) (c :: rest)
              = c :: remove_approxF f rest from by simp [remove_approxF, hm],
            show remove_approxF (g' + 1) (c :: rest)
              = c :: remove_approxF g' rest from by simp [remove_approxF, hm]]
          rw [ih g' rest hf hg]

theorem remove_approx_cons (c : Char) (rest : List Char) :
    remove_approx (c :: rest) =
      if leadsWith approxPattern (c :: rest) = true then
        remove_approx (rest.drop 6)
      else c :: remove_approx rest := by
  by_cases hm : leadsWith approxPattern (c :: rest) = true
  · rw [if_pos hm]
    show remove_approxF (rest.length + 1) (c :: rest) = _
    rw [show remove_approxF (rest.length + 1) (c :: rest)
        = remove_approxF rest.length (rest.drop 6) from by simp [remove_approxF, hm]]
    exact remove_approxF_invariant _ _ _ (by rw [List.length_drop]; omega) le_rfl
  · rw [if_neg hm]
    show remove_approxF (rest.length + 1) (c :: rest) = _
    rw [show remove_approxF (rest.length + 1) (c :: rest)
        = c :: remove_approxF rest.length rest from by simp [remove_approxF, hm]]
    rfl

theorem leadsWith_app {p u : List Char} (w : List Char) (h : p.length ≤ u.length) :
    leadsWith p (u ++ w) = leadsWith p u := by
  induction p generalizing u with
  | nil => rfl
  | cons p0 ps ih =>
    cases u with
    | nil => simp at h
    | cons c u' =>
      simp only [List.cons_append, leadsWith, List.append_eq]
      rw [ih (by simpa using h)]

theorem leadsWith_short {p u : List Char} (h : u.length < p.length) :
    leadsWith p u = false := by
  induction p generalizing u with
  | nil => simp at h
  | cons p0 ps ih =>
    cases u with
    | nil => rfl
    | cons c u' =>
      simp only [leadsWith]
      rw [ih (by simpa using h)]
      simp

theorem leadsWith_dash {p u v : List Char} (hp : ('-' : Char) ∉ p)
    (h : u.length < p.length) : leadsWith p (u ++ '-' :: v) = false := by
  induction p generalizing u with
  | nil => simp at h
  | cons p0 ps ih =>
    cases u with
    | nil =>
      have hne : p0 ≠ '-' := fun he => hp (he ▸ List.mem_cons_self _ _)
      simp [leadsWith, hne]
    | cons c u' =>
      simp only [List.cons_append, leadsWith, List.append_eq]
      rw [ih (fun hm => hp (List.mem_cons_of_mem _ hm)) (by simpa using h)]
      simp

theorem remove_approx_no_p {l : List Char} (h : ∀ c ∈ l, c ≠ 'p') :
    remove_approx l = l := by
  induction l with
  | nil => rfl
  | cons c rest ih =>
    have hm : leadsWith approxPattern (c :: rest) = false := by
      cases rest with
      | nil => simp [leadsWith, approxPattern]
      | cons d rest' =>
        have hd : ('p' : Char) ≠ d := fun he => h d (by simp) he.symm
        simp [leadsWith, approxPattern, hd]
    rw [remove_approx_cons, if_neg (by simp [hm])]
    rw [ih (fun x hx => h x (List.mem_cons_of_mem c hx))]

theorem mem_remove_approxF :
    ∀ (f : Nat) (l : List Char) {x : Char}, x ∈ remove_approxF f l → x ∈ l := by
  intro f
  induction f with
  | zero => intro l x h; exact h
  | succ f ih =>
    intro l x h
    cases l with
    | nil => cases h
    | cons c rest =>
      by_cases hm : leadsWith approxPattern (c :: rest) = true
      · rw [show remove_approxF (f + 1) (c :: rest)
            = remove_approxF f (rest.drop 6) from by simp [remove_approxF, hm]] at h
        exact List.mem_cons_of_mem c (List.drop_subset 6 rest (ih _ h))
      · rw [show remove_approxF (f + 1) (c :: rest)
            = c :: remove_approxF f rest from by simp [remove_approxF, hm]] at h
        rcases List.mem_cons.mp h with rfl | h2
        · exact List.mem_cons_self _ _
        · exact List.mem_cons_of_mem c (ih _ h2)

theorem mem_remove_approx {l : List Char} {x : Char}
    (h : x ∈ remove_approx l) : x ∈ l :=
  mem_remove_approxF l.length l h

theorem remove_approx_dash (u v : List Char) :
    remove_approx (u ++ '-' :: v) = remove_approx u ++ '-' :: remove_approx v := by
  have hnp : ('-' : Char) ∉ approxPattern := by decide
  suffices H : ∀ (n : Nat) (u v : List Char), u.length ≤ n →
      remove_approx (u ++ '-' :: v) = remove_approx u ++ '-' :: remove_approx v by
    exact H u.length u v le_rfl
  intro n
  induction n with
  | zero =>
    intro u v hu
    have h0 : u = [] := List.length_eq_zero.mp (Nat.le_zero.mp hu)
    subst h0
    rw [List.nil_append, remove_approx_cons,
      if_neg (by simp [leadsWith, approxPattern])]
    rfl
  | succ n ih =>
    intro u v hu
    cases u with
    | nil =>
      rw [List.nil_append, remove_approx_cons,
        if_neg (by simp [leadsWith, approxPattern])]
      rfl
    | cons c u' =>
      have hu' : u'.length ≤ n := by
        simp only [List.length_cons, Nat.succ_le_succ_iff] at hu
        exact hu
      rw [List.cons_append, remove_approx_cons]
      by_cases hlen : approxPattern.length ≤ (c :: u').length
      · have hcond : leadsWith approxPattern (c :: (u' ++ '-' :: v))
            = leadsWith approxPattern (c :: u') := by
          rw [show c :: (u' ++ '-' :: v) = (c :: u') ++ '-' :: v from rfl]
          exact leadsWith_app _ hlen
        have h6 : 6 ≤ u'.length := by
          simp only [approxPattern, List.length_cons] at hlen
          simpa using hlen
        by_cases hm : leadsWith approxPattern (c :: u') = true
        · rw [if_pos (by rw [hcond]; exact hm)]
          rw [show (u' ++ '-' :: v).drop 6 = u'.drop 6 ++ '-' :: v from
            List.drop_append_of_le_length h6]
          rw [ih _ v (by rw [List.length_drop]; omega)]
          rw [show remove_approx (c :: u') = remove_approx (u'.drop 6) from by
            rw [remove_approx_cons, if_pos hm]]
        · rw [if_neg (by rw [hcond]; exact hm)]
          rw [ih u' v hu']
          rw [show remove_approx (c :: u') = c :: remove_approx u' from by
            rw [remove_approx_cons, if_neg hm]]
          rfl
      · have hshort : (c :: u').length < approxPattern.length := Nat.lt_of_not_le hlen
        have hc1 : leadsWith approxPattern (c :: (u' ++ '-' :: v)) = false := by
          rw [show c :: (u' ++ '-' :: v) = (c :: u') ++ '-' :: v from rfl]
          exact leadsWith_dash hnp hshort
        have hc2 : leadsWith approxPattern (c :: u') = false :=
          leadsWith_short hshort
        rw [if_neg (by simp [hc1])]
        rw [ih u' v hu']
        rw [show remove_approx (c :: u') = c :: remove_approx u' from by
          rw [remove_approx_cons, if_neg (by simp [hc2])]]
        rfl

/-! ## `remove_commas` and character class lemmas -/

theorem remove_commas_app (a b : List Char) :
    remove_commas (a ++ b) = remove_commas a ++ remove_commas b := by
  unfold remove_commas
  exact List.filter_append a b

theorem mem_remove_commas {l : List Char} {x : Char}
    (h : x ∈ remove_commas l) : x ∈ l :=
  List.mem_of_mem_filter h

theorem remove_commas_id {l : List Char} (h : ∀ c ∈ l, c ≠ ',') :
    remove_commas l = l := by
  unfold remove_commas
  refine List.filter_eq_self.mpr fun a ha => ?_
  simpa [bne_iff_ne] using h a ha

theorem sentinel_chars {w : List Char} (hw : w ∈ naSentinels) :
    ∀ x ∈ w, x = 'n' ∨ x = 'a' ∨ x = 'o' ∨ x = 'e' ∨ x = '/' := by
  simp only [naSentinels, List.mem_cons, List.not_mem_nil, or_false] at hw
  rcases hw with rfl | rfl | rfl | rfl <;> decide

theorem sentinel_src_char {v : List Char} (hv : toLowerL v ∈ naSentinels)
    {c : Char} (hc : c ∈ v) :
    lowerChar c = 'n' ∨ lowerChar c = 'a' ∨ lowerChar c = 'o' ∨
      lowerChar c = 'e' ∨ lowerChar c = '/' := by
  refine sentinel_chars hv (lowerChar c) ?_
  unfold toLowerL
  exact List.mem_map_of_mem lowerChar hc

theorem spc_cases {c : Char} (h : isSpc c = true) :
    c = ' ' ∨ c = '\t' ∨ c = '\n' ∨ c = '\r' ∨ c = '\x0B' ∨ c = '\x0C' := by
  have h2 : ((((c = ' ' ∨ c = '\t') ∨ c = '\n') ∨ c = '\r') ∨ c = '\x0B') ∨
      c = '\x0C' := by simpa [isSpc] using h
  tauto

theorem sentinel_src_props {v : List Char} (hv : toLowerL v ∈ naSentinels) :
    ∀ c ∈ v, c ≠ ',' ∧ c ≠ 'p' ∧ c ≠ '-' ∧ isSpc c = false := by
  intro c hc
  have h2 := sentinel_src_char hv hc
  refine ⟨?_, ?_, ?_, ?_⟩
  · rintro rfl; exact absurd h2 (by decide)
  · rintro rfl; exact absurd h2 (by decide)
  · rintro rfl; exact absurd h2 (by decide)
  · by_cases hs : isSpc c = true
    · rcases spc_cases hs with rfl | rfl | rfl | rfl | rfl | rfl <;>
        exact absurd h2 (by decide)
    · simpa using hs

theorem digit_facts {c : Char} (h : myIsDigit c = true) :
    lowerChar c = c ∧ isSpc c = false ∧ c ≠ '-' ∧ c ≠ 'p' ∧ c ≠ ',' ∧
      c ≠ '+' := by
  have hle : c ≤ '9' := by
    unfold myIsDigit at h
    simp only [Bool.and_eq_true, decide_eq_true_eq] at h
    exact h.2
  refine ⟨?_, ?_, ?_, ?_, ?_, ?_⟩
  · unfold lowerChar
    rw [if_neg]
    rintro ⟨h1, _⟩
    exact absurd h1 (not_le.mpr (lt_of_le_of_lt hle (by decide)))
  · by_cases hs : isSpc c = true
    · rcases spc_cases hs with rfl | rfl | rfl | rfl | rfl | rfl <;>
        exact absurd h (by decide)
    · simpa using hs
  · rintro rfl; exact absurd h (by decide)
  · rintro rfl; exact absurd h (by decide)
  · rintro rfl; exact absurd h (by decide)
  · rintro rfl; exact absurd h (by decide)

theorem digits_toLowerL {l : List Char} (hd : ∀ c ∈ l, myIsDigit c = true) :
    toLowerL l = l := by
  unfold toLowerL
  induction l with
  | nil => rfl
  | cons c rest ih =>
    rw [List.map_cons, (digit_facts (hd c (by simp))).1,
      ih fun x hx => hd x (List.mem_cons_of_mem c hx)]

theorem digits_not_sentinel {l : List Char} (hne : l ≠ [])
    (hd : ∀ c ∈ l, myIsDigit c = true) : toLowerL l ∉ naSentinels := by
  intro hmem
  rw [digits_toLowerL hd] at hmem
  cases l with
  | nil => exact hne rfl
  | cons c rest =>
    have h2 := sentinel_chars hmem c (by simp)
    have hdg := hd c (by simp)
    rcases h2 with rfl | rfl | rfl | rfl | rfl <;> exact absurd hdg (by decide)

theorem pythonInt_nonneg {l : List Char} (hnd : ∀ c ∈ l, c ≠ '-')
    {n : Int} (h : pythonInt l = some n) : 0 ≤ n := by
  unfold pythonInt at h
  split at h
  · cases h
  · rename_i c rest ht
    have hcm : c ∈ trim l := by rw [ht]; exact List.mem_cons_self c rest
    have hc : ¬c = '-' := hnd c (mem_trim hcm)
    rw [if_neg hc] at h
    by_cases hp : c = '+'
    · rw [if_pos hp] at h
      rcases Option.map_eq_some'.mp h with ⟨m, _, rfl⟩
      exact Int.ofNat_nonneg m
    · rw [if_neg hp] at h
      rcases Option.map_eq_some'.mp h with ⟨m, _, rfl⟩
      exact Int.ofNat_nonneg m

theorem clean_num_string_na {l : List Char}
    (h : check_for_na_value (cleaned_remainder l) = none) :
    clean_num_string l = Except.ok none := by
  have h2 : check_for_na_value (trim (extract_highest_from_range (trim
      (remove_approx (trim (remove_commas (trim l))))))) = none := h
  simp only [clean_num_string]
  rw [h2]

theorem clean_num_string_ok {l : List Char} {v : List Char} {n : Int}
    (h : check_for_na_value (cleaned_remainder l) = some v)
    (hn : pythonInt v = some n) :
    clean_num_string l = Except.ok (some n) := by
  have h2 : check_for_na_value (trim (extract_highest_from_range (trim
      (remove_approx (trim (remove_commas (trim l))))))) = some v := h
  simp only [clean_num_string, h2, hn]

theorem clean_num_string_err {l : List Char} {v : List Char}
    (h : check_for_na_value (cleaned_remainder l) = some v)
    (hn : pythonInt v = none) :
    clean_num_string l = Except.error () := by
  have h2 : check_for_na_value (trim (extract_highest_from_range (trim
      (remove_approx (trim (remove_commas (trim l))))))) = some v := h
  simp only [clean_num_string, h2, hn]

/-! ## Sentinel pipeline lemmas -/

theorem spc_ne {c : Char} (h : isSpc c = true) : c ≠ ',' ∧ c ≠ 'p' := by
  constructor <;> rintro rfl <;> exact absurd h (by decide)

theorem trim_eq_nil_all {b : List Char} (h : trim b = []) :
    ∀ c ∈ b, isSpc c = true := by
  have h1 : ∀ c ∈ ltrim b, isSpc c = true := by
    intro c hc
    have h2 : (ltrim b).reverse.dropWhile isSpc = [] := by
      have h3 := h
      unfold trim rtrim at h3
      exact List.reverse_eq_nil_iff.mp h3
    exact List.dropWhile_eq_nil_iff.mp h2 c (by simpa using hc)
  intro c hc
  obtain ⟨P, hP, hPw⟩ := ltrim_decomp b
  rw [hP] at hc
  rcases List.mem_append.mp hc with h3 | h3
  · exact hPw c h3
  · exact h1 c h3

theorem rtrim_all_ws {b : List Char} (h : ∀ c ∈ b, isSpc c = true) :
    rtrim b = [] := by
  unfold rtrim
  rw [List.dropWhile_eq_nil_iff.mpr (fun x hx => h x (by simpa using hx))]
  rfl

theorem remove_commas_mid (x y : List Char) :
    remove_commas (x ++ '-' :: y) = remove_commas x ++ '-' :: remove_commas y := by
  rw [remove_commas_app]
  simp [remove_commas, List.filter_cons]

theorem trim_clean_chain_sentinel {b : List Char}
    (h : toLowerL (trim b) ∈ naSentinels) :
    trim (rtrim (remove_approx (rtrim (remove_commas (rtrim b))))) = trim b := by
  by_cases hv : trim b = []
  · have hall := trim_eq_nil_all hv
    rw [rtrim_all_ws hall]
    rw [show remove_commas ([] : List Char) = [] from rfl,
      show rtrim ([] : List Char) = [] from rfl,
      show remove_approx ([] : List Char) = [] from rfl,
      show rtrim ([] : List Char) = [] from rfl,
      show trim ([] : List Char) = [] from rfl, hv]
  · obtain ⟨P, S, hb, hPw, hSw⟩ := trim_decomp b
    have hprops := sentinel_src_props h
    have hvS : rtrim (trim b ++ S) = trim b := by
      rw [rtrim_app_ws hSw, rtrim_trim]
    have h1 : rtrim b = P ++ trim b := by
      conv_lhs => rw [hb, List.append_assoc]
      rw [rtrim_app_ne (by rw [hvS]; exact hv), hvS]
    have hPne : ∀ c ∈ P, c ≠ ',' ∧ c ≠ 'p' := fun c hc => spc_ne (hPw c hc)
    have h2 : remove_commas (rtrim b) = P ++ trim b := by
      rw [h1, remove_commas_app, remove_commas_id (fun c hc => (hPne c hc).1),
        remove_commas_id (fun c hc => (hprops c hc).1)]
    have h3 : rtrim (remove_commas (rtrim b)) = P ++ trim b := by
      rw [h2, rtrim_app_ne (by rw [rtrim_trim]; exact hv), rtrim_trim]
    have h4 : remove_approx (rtrim (remove_commas (rtrim b))) = P ++ trim b := by
      rw [h3]
      refine remove_approx_no_p ?_
      intro c hc
      rcases List.mem_append.mp hc with hm | hm
      · exact (hPne c hm).2
      · exact (hprops c hm).2.1
    have h5 : rtrim (remove_approx (rtrim (remove_commas (rtrim b))))
        = P ++ trim b := by
      rw [h4, rtrim_app_ne (by rw [rtrim_trim]; exact hv), rtrim_trim]
    rw [h5]
    rw [show trim (P ++ trim b) = rtrim (ltrim (P ++ trim b)) from rfl,
      ltrim_app_ws _ hPw, ltrim_trim, rtrim_trim]

theorem cleaned_remainder_sentinel {l : List Char}
    (h : toLowerL (trim (extract_highest_from_range l)) ∈ naSentinels) :
    cleaned_remainder l = trim (extract_highest_from_range l) := by
  by_cases hd : ('-' : Char) ∈ l
  · obtain ⟨a, b, rfl, hnb⟩ := dash_decomp hd
    rw [extract_app_dash hnb] at h ⊢
    unfold cleaned_remainder
    have hW : ('-' : Char) ∉ rtrim (remove_approx (rtrim (remove_commas
        (rtrim b)))) := by
      intro hmem
      exact hnb (mem_rtrim (mem_remove_commas (mem_rtrim (mem_remove_approx
        (mem_rtrim hmem)))))
    rw [trim_app_mid (by decide), remove_commas_mid, trim_app_mid (by decide),
      remove_approx_dash, trim_app_mid (by decide), extract_app_dash hW,
      trim_clean_chain_sentinel h]
  · rw [extract_no_dash hd] at h ⊢
    unfold cleaned_remainder
    have hprops := sentinel_src_props h
    have h1 : remove_commas (trim l) = trim l :=
      remove_commas_id fun c hc => (hprops c hc).1
    have h2 : ('-' : Char) ∉ trim l := fun hm => (hprops _ hm).2.2.1 rfl
    rw [h1, trim_trim, remove_approx_no_p fun c hc => (hprops c hc).2.1,
      trim_trim, extract_no_dash h2, trim_trim]

/-! ## Claim C5 -/

/-- C5: for every string whose cleaned remainder is, case-insensitively,
one of "na", "n/a", "none" or the empty string, `clean_num_string` returns
`None` (`Except.ok none`) and does not signal the `ValueError`, so the
Record Builder's inference fallback is never invoked; conversely, for a
non-sentinel remainder on which the base-10 parse fails,
`clean_num_string` signals the `ValueError` (`Except.error ()`), which
triggers the fallback. -/
theorem C5_sentinel_vs_valueerror (l : List Char) (oracle : Option Int) :
    (toLowerL (cleaned_remainder l) ∈ naSentinels →
      clean_num_string l = Except.ok none ∧
        clean_number_with_fallback oracle l = (none, false)) ∧
    (toLowerL (cleaned_remainder l) ∉ naSentinels →
      pythonInt (cleaned_remainder l) = none →
      clean_num_string l = Except.error () ∧
        clean_number_with_fallback oracle l = (fix_number oracle, true)) := by
  constructor
  · intro h
    have h1 : check_for_na_value (cleaned_remainder l) = none := by
      unfold check_for_na_value
      rw [if_pos h]
    have h2 := clean_num_string_na h1
    refine ⟨h2, ?_⟩
    unfold clean_number_with_fallback
    rw [h2]
  · intro h hp
    have h1 : check_for_na_value (cleaned_remainder l) =
        some (cleaned_remainder l) := by
      unfold check_for_na_value
      rw [if_neg h]
    have h2 := clean_num_string_err h1 hp
    refine ⟨h2, ?_⟩
    unfold clean_number_with_fallback
    rw [h2]

/-- Witness for C5: "N/A" yields `None` without fallback; "abc" signals
the `ValueError` and the fallback runs. -/
theorem C5_sentinel_vs_valueerror_witness :
    (clean_num_string "N/A".data = Except.ok none ∧
      clean_number_with_fallback (some 3) "N/A".data = (none, false)) ∧
    (clean_num_string "abc".data = Except.error () ∧
      clean_number_with_fallback (some 3) "abc".data =
        (fix_number (some 3), true)) :=
  ⟨(C5_sentinel_vs_valueerror "N/A".data (some 3)).1 (by decide),
    (C5_sentinel_vs_valueerror "abc".data (some 3)).2 (by decide) (by decide)⟩

/-! ## Claim C10 -/

/-- C10: for every input string whose last hyphen-separated segment,
after trimming, is empty or a not-available sentinel (e.g. any string
ending in a hyphen, such as "1200-"), `clean_num_string` returns `None`
rather than signaling the `ValueError`, so the inference fallback is
never triggered, even though the string itself is not a sentinel. -/
theorem C10_trailing_sentinel_segment (l : List Char) (oracle : Option Int) :
    toLowerL (trim (extract_highest_from_range l)) ∈ naSentinels →
    clean_num_string l = Except.ok none ∧
      clean_number_with_fallback oracle l = (none, false) := by
  intro h
  have h1 : check_for_na_value (cleaned_remainder l) = none := by
    unfold check_for_na_value
    rw [cleaned_remainder_sentinel h, if_pos h]
  have h2 := clean_num_string_na h1
  refine ⟨h2, ?_⟩
  unfold clean_number_with_fallback
  rw [h2]

/-- Witness for C10: "1200-" (last segment empty) yields `None`, no
fallback. -/
theorem C10_trailing_sentinel_segment_witness :
    toLowerL (trim (extract_highest_from_range "1200-".data)) ∈ naSentinels ∧
    (clean_num_string "1200-".data = Except.ok none ∧
      clean_number_with_fallback (some 7) "1200-".data = (none, false)) :=
  ⟨by decide, C10_trailing_sentinel_segment "1200-".data (some 7) (by decide)⟩

/-! ## Decorated numeral lemmas for C4 -/

theorem digit_or_comma_facts {c : Char} (h : myIsDigit c = true ∨ c = ',') :
    isSpc c = false ∧ c ≠ 'p' ∧ c ≠ '-' := by
  rcases h with h | rfl
  · have h2 := digit_facts h
    exact ⟨h2.2.1, h2.2.2.2.1, h2.2.2.1⟩
  · exact ⟨by decide, by decide, by decide⟩

theorem remove_approx_marker {T : List Char} (hT : ∀ c ∈ T, c ≠ 'p') :
    remove_approx ("Approx. ".data ++ T) = ' ' :: T := by
  rw [show "Approx. ".data ++ T =
    'A' :: 'p' :: 'p' :: 'r' :: 'o' :: 'x' :: '.' :: ' ' :: T from rfl]
  rw [remove_approx_cons, if_pos (by simp [leadsWith, approxPattern])]
  rw [show ('p' :: 'p' :: 'r' :: 'o' :: 'x' :: '.' :: ' ' :: T).drop 6
    = ' ' :: T from rfl]
  refine remove_approx_no_p ?_
  intro c hc
  rcases List.mem_cons.mp hc with rfl | h2
  · decide
  · exact hT c h2

theorem ltrim_space_cons (T : List Char) : ltrim (' ' :: T) = ltrim T := by
  unfold ltrim
  rw [List.dropWhile_cons, if_pos (by decide : isSpc ' ' = true)]

theorem trim_space_cons (T : List Char) : trim (' ' :: T) = trim T := by
  rw [trim, ltrim_space_cons]
  rfl

theorem ltrim_marker (T : List Char) :
    ltrim ("Approx. ".data ++ T) = "Approx. ".data ++ T := by
  rw [show "Approx. ".data ++ T =
    'A' :: ('p' :: 'p' :: 'r' :: 'o' :: 'x' :: '.' :: ' ' :: T) from rfl]
  exact ltrim_cons_nonws _ (by decide)

/-! ## Claim C4 -/

/-- C4: for every raw string composed of an integer decorated with
thousands-separator commas, the literal "Approx." marker and/or a
hyphen-separated range (the `RangeNumeral` class), `clean_num_string`
returns the same integer as parsing the range's upper bound alone with
commas and the marker removed and whitespace trimmed; in particular
`clean_num_string "Approx. 1,200-1,500" = 1500` (see the witness). -/
theorem C4_range_upper_bound (r : RangeNumeral) (n : Int)
    (hwf : WFRange r)
    (hup : pythonInt (trim (remove_approx (remove_commas r.hi))) = some n) :
    clean_num_string (renderRange r) = Except.ok (some n) := by
  obtain ⟨hhi, ⟨d, hd, hdd⟩, hloW⟩ := hwf
  have hhi_ne : r.hi ≠ [] := by
    intro h0
    rw [h0] at hd
    cases hd
  have hhiD : ∀ c ∈ remove_commas r.hi, myIsDigit c = true := by
    intro c hc
    have h1 : c ∈ r.hi := mem_remove_commas hc
    rcases hhi c h1 with h2 | h2
    · exact h2
    · exfalso
      have h3 := (List.mem_filter.mp hc).2
      rw [h2] at h3
      simp at h3
  have hrchi_ne : remove_commas r.hi ≠ [] := by
    intro he
    have h1 : d ∈ remove_commas r.hi := by
      unfold remove_commas
      refine List.mem_filter.mpr ⟨hd, ?_⟩
      simp only [bne_iff_ne, ne_eq]
      rintro rfl
      exact absurd hdd (by decide)
    rw [he] at h1
    cases h1
  have hrchiF := fun c hc => digit_facts (hhiD c hc)
  have hrchi_nonws : ∀ c ∈ remove_commas r.hi, isSpc c = false :=
    fun c hc => (hrchiF c hc).2.1
  have hrchi_nop : ∀ c ∈ remove_commas r.hi, c ≠ 'p' :=
    fun c hc => (hrchiF c hc).2.2.2.1
  have hrchi_nodash : ('-' : Char) ∉ remove_commas r.hi :=
    fun hm => (hrchiF _ hm).2.2.1 rfl
  have htrim_rchi : trim (remove_commas r.hi) = remove_commas r.hi :=
    trim_all_nonws hrchi_nonws
  have hrtrim_rchi : rtrim (remove_commas r.hi) = remove_commas r.hi :=
    rtrim_all_nonws hrchi_nonws
  have hltrim_rchi : ltrim (remove_commas r.hi) = remove_commas r.hi :=
    ltrim_all_nonws hrchi_nonws
  have hupv : pythonInt (remove_commas r.hi) = some n := by
    rw [remove_approx_no_p hrchi_nop, htrim_rchi] at hup
    exact hup
  have hhiF := fun c hc => digit_or_comma_facts (hhi c hc)
  have hhi_nonws : ∀ c ∈ r.hi, isSpc c = false := fun c hc => (hhiF c hc).1
  have hrtrim_hi : rtrim r.hi = r.hi := rtrim_all_nonws hhi_nonws
  have hrem : cleaned_remainder (renderRange r) = remove_commas r.hi := by
    cases hlo : r.lo with
    | some lo =>
      have hloC : ∀ c ∈ lo, myIsDigit c = true ∨ c = ',' := by
        have hloW2 := hloW
        rw [hlo] at hloW2
        exact hloW2
      have hloF := fun c hc => digit_or_comma_facts (hloC c hc)
      have hlo_nonws : ∀ c ∈ lo, isSpc c = false := fun c hc => (hloF c hc).1
      have hltrim_lo : ltrim lo = lo := ltrim_all_nonws hlo_nonws
      have hrcloD : ∀ c ∈ remove_commas lo, myIsDigit c = true := by
        intro c hc
        have h1 : c ∈ lo := mem_remove_commas hc
        rcases hloC c h1 with h2 | h2
        · exact h2
        · exfalso
          have h3 := (List.mem_filter.mp hc).2
          rw [h2] at h3
          simp at h3
      have hrcloF := fun c hc => digit_facts (hrcloD c hc)
      have hrclo_nonws : ∀ c ∈ remove_commas lo, isSpc c = false :=
        fun c hc => (hrcloF c hc).2.1
      have hltrim_rclo : ltrim (remove_commas lo) = remove_commas lo :=
        ltrim_all_nonws hrclo_nonws
      have hT : ∀ c ∈ remove_commas lo ++ '-' :: remove_commas r.hi, c ≠ 'p' := by
        intro c hc
        rcases List.mem_append.mp hc with hm | hm
        · exact (hrcloF c hm).2.2.2.1
        · rcases List.mem_cons.mp hm with rfl | hm2
          · decide
          · exact hrchi_nop c hm2
      by_cases ha : r.approx = true
      · have hrender : renderRange r =
            ("Approx. ".data ++ lo) ++ '-' :: r.hi := by
          simp [renderRange, hlo, ha]
        unfold cleaned_remainder
        rw [hrender, @trim_app_mid _ _ '-' (by decide), hrtrim_hi,
          ltrim_marker lo, remove_commas_mid, remove_commas_app,
          show remove_commas "Approx. ".data = "Approx. ".data from by decide,
          @trim_app_mid _ _ '-' (by decide), hrtrim_rchi,
          ltrim_marker (remove_commas lo), List.append_assoc,
          remove_approx_marker hT, trim_space_cons,
          @trim_app_mid _ _ '-' (by decide), hltrim_rclo, hrtrim_rchi,
          extract_app_dash hrchi_nodash]
        exact htrim_rchi
      · have hrender : renderRange r = lo ++ '-' :: r.hi := by
          simp only [renderRange, hlo]
          rw [if_neg ha]
          simp
        unfold cleaned_remainder
        rw [hrender, @trim_app_mid _ _ '-' (by decide), hrtrim_hi, hltrim_lo,
          remove_commas_mid, @trim_app_mid _ _ '-' (by decide), hrtrim_rchi,
          hltrim_rclo, remove_approx_no_p hT,
          @trim_app_mid _ _ '-' (by decide), hltrim_rclo, hrtrim_rchi,
          extract_app_dash hrchi_nodash]
        exact htrim_rchi
    | none =>
      by_cases ha : r.approx = true
      · have hrender : renderRange r = "Approx. ".data ++ r.hi := by
          simp [renderRange, hlo, ha]
        unfold cleaned_remainder
        rw [hrender,
          show trim ("Approx. ".data ++ r.hi) = "Approx. ".data ++ r.hi from by
            rw [trim, ltrim_marker,
              rtrim_app_ne (by rw [hrtrim_hi]; exact hhi_ne), hrtrim_hi],
          remove_commas_app,
          show remove_commas "Approx. ".data = "Approx. ".data from by decide,
          show trim ("Approx. ".data ++ remove_commas r.hi)
              = "Approx. ".data ++ remove_commas r.hi from by
            rw [trim, ltrim_marker,
              rtrim_app_ne (by rw [hrtrim_rchi]; exact hrchi_ne), hrtrim_rchi],
          remove_approx_marker hrchi_nop, trim_space_cons, htrim_rchi,
          extract_no_dash hrchi_nodash]
        exact htrim_rchi
      · have hrender : renderRange r = r.hi := by
          simp only [renderRange, hlo]
          rw [if_neg ha]
          simp
        unfold cleaned_remainder
        rw [hrender, trim_all_nonws hhi_nonws, htrim_rchi,
          remove_approx_no_p hrchi_nop, htrim_rchi,
          extract_no_dash hrchi_nodash]
        exact htrim_rchi
  have hna : check_for_na_value (cleaned_remainder (renderRange r)) =
      some (remove_commas r.hi) := by
    rw [hrem]
    unfold check_for_na_value
    rw [if_neg (digits_not_sentinel hrchi_ne hhiD)]
  exact clean_num_string_ok hna hupv

/-- Witness for C4: "Approx. 1,200-1,500" is the rendered decorated
numeral with marker, lower bound "1,200" and upper bound "1,500", and
`clean_num_string` maps it to 1500. -/
theorem C4_range_upper_bound_witness :
    WFRange ⟨true, some "1,200".data, "1,500".data⟩ ∧
    renderRange ⟨true, some "1,200".data, "1,500".data⟩ =
      "Approx. 1,200-1,500".data ∧
    clean_num_string "Approx. 1,200-1,500".data = Except.ok (some 1500) := by
  refine ⟨by unfold WFRange; decide, by decide, ?_⟩
  have h := C4_range_upper_bound ⟨true, some "1,200".data, "1,500".data⟩ 1500
    (by unfold WFRange; decide) (by decide)
  rw [show renderRange ⟨true, some "1,200".data, "1,500".data⟩ =
    "Approx. 1,200-1,500".data from by decide] at h
  exact h

/-! ## Claim C8 -/

/-- C8 counterexample: when the deterministic cleaner fails (raw "abc")
and the service's structured answer is -7, the Record Builder stores the
negative integer -7 in the numeric field; the claim that numeric fields
are never negative regardless of the inference fallback is false. -/
theorem C8_counterexample :
    clean_num_string "abc".data = Except.error () ∧
    clean_number_with_fallback (some (-7)) "abc".data = (some (-7), true) ∧
    (-7 : Int) < 0 :=
  ⟨rfl, rfl, by decide⟩

/-- C8 amended: a numeric field is either absent or an integer; the
deterministic cleaner only ever produces non-negative integers (the
hyphen split consumes any minus sign), while the inference fallback
passes the service's integer through unchanged except for translating -1
to absent — so only a negative service answer (other than -1) can make
the field negative. -/
theorem C8_numeric_fields_amended :
    (∀ (l : List Char) (n : Int),
      clean_num_string l = Except.ok (some n) → 0 ≤ n)
    ∧ fix_number (some (-1)) = none
    ∧ (∀ m : Int, m ≠ -1 → fix_number (some m) = some m)
    ∧ fix_number none = none := by
  refine ⟨?_, rfl, ?_, rfl⟩
  · intro l n h
    by_cases hmem : toLowerL (cleaned_remainder l) ∈ naSentinels
    · have hna : check_for_na_value (cleaned_remainder l) = none := by
        unfold check_for_na_value
        rw [if_pos hmem]
      rw [clean_num_string_na hna] at h
      simp at h
    · have hna : check_for_na_value (cleaned_remainder l) =
          some (cleaned_remainder l) := by
        unfold check_for_na_value
        rw [if_neg hmem]
      rcases Option.eq_none_or_eq_some (pythonInt (cleaned_remainder l)) with
        hp | ⟨m, hp⟩
      · rw [clean_num_string_err hna hp] at h
        simp at h
      · rw [clean_num_string_ok hna hp] at h
        have hmn : m = n := by simpa using h
        subst hmn
        refine pythonInt_nonneg ?_ hp
        intro c hc
        unfold cleaned_remainder at hc
        exact (mem_extract (mem_trim hc)).2
  · intro m hm
    simp only [fix_number]
    rw [if_neg hm]

/-- Witness for C8 (amended): "1,500" cleans to 1500 ≥ 0, and the
fallback passes 5 through. -/
theorem C8_numeric_fields_amended_witness :
    (0 : Int) ≤ 1500 ∧ fix_number (some 5) = some 5 :=
  ⟨C8_numeric_fields_amended.1 "1,500".data 1500 rfl,
    C8_numeric_fields_amended.2.2.1 5 (by decide)⟩

/-! ## Claim C9 -/

/-- C9: when the number-resolution fallback receives a parsed structured
answer, a returned number equal to -1 is translated to null
(`fix_number` returns `none`) and any other integer is returned
unchanged. -/
theorem C9_fix_number_minus_one :
    fix_number (some (-1)) = none ∧
    (∀ n : Int, n ≠ -1 → fix_number (some n) = some n) := by
  refine ⟨rfl, ?_⟩
  intro n hn
  simp only [fix_number]
  rw [if_neg hn]

/-- Witness for C9 at -1 and 42. -/
theorem C9_fix_number_minus_one_witness :
    fix_number (some (-1)) = none ∧ fix_number (some 42) = some 42 :=
  ⟨C9_fix_number_minus_one.1, C9_fix_number_minus_one.2 42 (by decide)⟩

/-! ## Claim C1 -/

/-- C1 counterexample: with start 2020-01-01T00:01:30 and restoration
2020-01-01T00:00:00 the difference is -90 seconds; the code stores
`int(-90/60) = -1` (truncation toward zero) while the claimed
`floor(-90/60)` is -2, so `duration_minutes` is not the floor for
negative differences. -/
theorem C1_counterexample :
    (get_duration_minutes
      { date := "1/1/20".data, outage_type := "X".data,
        start_datetime := some ⟨2020, 1, 1, 0, 1, 30⟩,
        restored_datetime := some ⟨2020, 1, 1, 0, 0, 0⟩ }).duration_minutes
      = some (-1) ∧
    Int.fdiv (toSeconds ⟨2020, 1, 1, 0, 0, 0⟩ -
      toSeconds ⟨2020, 1, 1, 0, 1, 30⟩) 60 = -2 ∧
    some (-1 : Int) ≠ some (-2 : Int) :=
  ⟨by decide, by decide, by decide⟩

/-- C1 amended: when both derived datetimes are set, `duration_minutes`
is the difference in seconds divided by 60 truncated toward zero (which
agrees with the floor exactly when the difference is non-negative); when
either datetime is unset, `duration_minutes` is left untouched. -/
theorem C1_duration_truncation (e : PowerOutageEvent) :
    (∀ s r : DateTime,
      e.start_datetime = some s → e.restored_datetime = some r →
      (get_duration_minutes e).duration_minutes
          = some (Int.tdiv (toSeconds r - toSeconds s) 60)
        ∧ (0 ≤ toSeconds r - toSeconds s →
            Int.tdiv (toSeconds r - toSeconds s) 60
              = Int.fdiv (toSeconds r - toSeconds s) 60))
    ∧ ((e.start_datetime = none ∨ e.restored_datetime = none) →
        (get_duration_minutes e).duration_minutes = e.duration_minutes) := by
  constructor
  · intro s r hs hr
    constructor
    · unfold get_duration_minutes
      rw [hs, hr]
    · intro hpos
      obtain ⟨k, hk⟩ := Int.eq_ofNat_of_zero_le hpos
      rw [hk]
      cases k with
      | zero => rfl
      | succ j => rfl
  · intro h
    unfold get_duration_minutes
    rcases h with h | h
    · rw [h]
    · rw [h]
      cases hs : e.start_datetime with
      | none => rfl
      | some s => rfl

/-- Witness for C1 (amended): a positive difference of 5430 s gives 90
minutes with truncation = floor, and a record missing the restoration
datetime keeps `duration_minutes` unset. -/
theorem C1_duration_truncation_witness :
    ((get_duration_minutes
      { date := "1/1/20".data, outage_type := "X".data,
        start_datetime := some ⟨2020, 1, 1, 0, 0, 0⟩,
        restored_datetime := some ⟨2020, 1, 1, 1, 30, 30⟩ }).duration_minutes
      = some (Int.tdiv (toSeconds ⟨2020, 1, 1, 1, 30, 30⟩ -
          toSeconds ⟨2020, 1, 1, 0, 0, 0⟩) 60)
      ∧ Int.tdiv (toSeconds ⟨2020, 1, 1, 1, 30, 30⟩ -
          toSeconds ⟨2020, 1, 1, 0, 0, 0⟩) 60
        = Int.fdiv (toSeconds ⟨2020, 1, 1, 1, 30, 30⟩ -
          toSeconds ⟨2020, 1, 1, 0, 0, 0⟩) 60)
    ∧ (get_duration_minutes
        { date := "1/1/20".data, outage_type := "X".data,
          start_datetime := some ⟨2020, 1, 1, 0, 0, 0⟩ }).duration_minutes
      = ({ date := "1/1/20".data, outage_type := "X".data,
           start_datetime := some ⟨2020, 1, 1, 0, 0, 0⟩ } :
          PowerOutageEvent).duration_minutes := by
  constructor
  · have h := (C1_duration_truncation
      { date := "1/1/20".data, outage_type := "X".data,
        start_datetime := some ⟨2020, 1, 1, 0, 0, 0⟩,
        restored_datetime := some ⟨2020, 1, 1, 1, 30, 30⟩ }).1
      ⟨2020, 1, 1, 0, 0, 0⟩ ⟨2020, 1, 1, 1, 30, 30⟩ rfl rfl
    exact ⟨h.1, h.2 (by decide)⟩
  · exact (C1_duration_truncation
      { date := "1/1/20".data, outage_type := "X".data,
        start_datetime := some ⟨2020, 1, 1, 0, 0, 0⟩ }).2 (Or.inr rfl)

/-! ## Claim C7 -/

/-- C7 counterexample: on a record whose optional `restoration_time` is
absent, the restoration phase does not test-and-skip: the sentinel check
`check_for_na_value(event.restoration_time)` receives `None` and raises
`AttributeError` (`None` has no `.lower()`), so `add_restored_datetime`
fails instead of returning the record with `restored_datetime` unset. -/
theorem C7_counterexample :
    add_restored_datetime (some ⟨2020, 6, 2, 6, 0, 0⟩)
      { date := "6/1/20".data, outage_type := "X".data } = Except.error () :=
  rfl

/-- C7 amended: for every record whose `restoration_time` is present, the
phase first tests it against the not-available sentinel set; on a match
it skips the inference answer entirely (the result does not depend on the
client's answer) and leaves the record untouched; only otherwise is the
inference answer applied. Records with `restoration_time` absent instead
crash the sentinel check (see the counterexample). -/
theorem C7_restoration_sentinel_skip (e : PowerOutageEvent) (s : List Char)
    (p p' : Option DateTime) (hs : e.restoration_time = some s) :
    (check_for_na_value s = none →
      add_restored_datetime p e = Except.ok e ∧
        add_restored_datetime p e = add_restored_datetime p' e)
    ∧ (check_for_na_value s ≠ none →
        (∀ dt, p = some dt →
          add_restored_datetime p e =
            Except.ok { e with restored_datetime := some dt })
        ∧ (p = none → add_restored_datetime p e = Except.ok e)) := by
  constructor
  · intro hna
    constructor
    · simp only [add_restored_datetime, hs, hna]
    · simp only [add_restored_datetime, hs, hna]
  · intro hna
    obtain ⟨v, hv⟩ : ∃ v, check_for_na_value s = some v := by
      rcases Option.eq_none_or_eq_some (check_for_na_value s) with hc | ⟨v, hc⟩
      · exact absurd hc hna
      · exact ⟨v, hc⟩
    constructor
    · intro dt hdt
      simp only [add_restored_datetime, hs, hv, hdt]
    · intro hp
      simp only [add_restored_datetime, hs, hv, hp]

/-- Witness for C7 (amended): a sentinel restoration time "n/a" skips the
answer; a real restoration string applies the parsed answer; an
unparseable answer leaves the record unchanged. -/
theorem C7_restoration_sentinel_skip_witness :
    (add_restored_datetime (some ⟨2020, 6, 2, 6, 0, 0⟩)
        { date := "6/1/20".data, outage_type := "X".data,
          restoration_time := some "n/a".data }
      = Except.ok { date := "6/1/20".data, outage_type := "X".data,
                    restoration_time := some "n/a".data })
    ∧ (add_restored_datetime (some ⟨2020, 6, 2, 6, 0, 0⟩)
        { date := "6/1/20".data, outage_type := "X".data,
          restoration_time := some "6:00 a.m. June 2".data }
      = Except.ok { date := "6/1/20".data, outage_type := "X".data,
                    restoration_time := some "6:00 a.m. June 2".data,
                    restored_datetime := some ⟨2020, 6, 2, 6, 0, 0⟩ })
    ∧ (add_restored_datetime none
        { date := "6/1/20".data, outage_type := "X".data,
          restoration_time := some "6:00 a.m. June 2".data }
      = Except.ok { date := "6/1/20".data, outage_type := "X".data,
                    restoration_time := some "6:00 a.m. June 2".data }) := by
  refine ⟨?_, ?_, ?_⟩
  · exact ((C7_restoration_sentinel_skip _ "n/a".data
      (some ⟨2020, 6, 2, 6, 0, 0⟩) none rfl).1 (by decide)).1
  · exact ((C7_restoration_sentinel_skip _ "6:00 a.m. June 2".data
      (some ⟨2020, 6, 2, 6, 0, 0⟩) none rfl).2 (by decide)).1
      ⟨2020, 6, 2, 6, 0, 0⟩ rfl
  · exact ((C7_restoration_sentinel_skip _ "6:00 a.m. June 2".data
      none none rfl).2 (by decide)).2 rfl

/-! ## Claim C3 -/

/-- C3: for every configured year range, if any one configured year has
neither the recognized spreadsheet file nor the recognized
delimited-text file among the source files, `load_data` fails with the
`FileNotFoundError` and the run produces no output file (the pipeline
never reaches `output_results`). -/
theorem C3_missing_source_fatal (files : List String) (years : List Nat)
    (h : ∃ y ∈ years, xlsName y ∉ files ∧ csvName y ∉ files) :
    (∃ msg, load_data files years = Except.error msg) ∧
    (∃ msg, run_pipeline files years = Except.error msg) := by
  have hload : ∀ ys : List Nat,
      (∃ y ∈ ys, xlsName y ∉ files ∧ csvName y ∉ files) →
      ∃ msg, load_data files ys = Except.error msg := by
    intro ys
    induction ys with
    | nil =>
      rintro ⟨y, hy, _⟩
      cases hy
    | cons y ys ih =>
      rintro ⟨z, hz, hz1, hz2⟩
      rcases List.mem_cons.mp hz with rfl | hzs
      · refine ⟨"No data file found for " ++ toString z, ?_⟩
        unfold load_data
        rw [if_neg hz1, if_neg hz2]
      · obtain ⟨msg, hmsg⟩ := ih ⟨z, hzs, hz1, hz2⟩
        by_cases h1 : xlsName y ∈ files
        · refine ⟨msg, ?_⟩
          unfold load_data
          rw [if_pos h1, hmsg]
        · by_cases h2 : csvName y ∈ files
          · refine ⟨msg, ?_⟩
            unfold load_data
            rw [if_neg h1, if_pos h2, hmsg]
          · refine ⟨"No data file found for " ++ toString y, ?_⟩
            unfold load_data
            rw [if_neg h1, if_neg h2]
  obtain ⟨msg, hmsg⟩ := hload years h
  refine ⟨⟨msg, hmsg⟩, ⟨msg, ?_⟩⟩
  unfold run_pipeline
  rw [hmsg]

/-- Witness for C3: a single configured year 2002 with an empty source
directory aborts the run with no output. -/
theorem C3_missing_source_fatal_witness :
    (∃ msg, load_data [] [2002] = Except.error msg) ∧
    (∃ msg, run_pipeline [] [2002] = Except.error msg) :=
  C3_missing_source_fatal [] [2002]
    ⟨2002, by simp, List.not_mem_nil _, List.not_mem_nil _⟩

/-! ## Claim C6 -/

theorem getLast?_append_singleton (l : List Char) (a : Char) :
    (l ++ [a]).getLast? = some a := by
  simp

theorem findRegion_pos {p L : List Char}
    (hU : ∀ c ∈ L, 'A' ≤ c ∧ c ≤ 'Z') (h2 : 2 ≤ L.length)
    (h6 : L.length ≤ 6) :
    findRegion (p ++ '(' :: L ++ [')']) = some (p, L) := by
  have hrev : (p ++ '(' :: L ++ [')']).reverse
      = ')' :: (L.reverse ++ '(' :: p.reverse) := by simp
  have hall : ∀ x ∈ L.reverse, (fun c => 'A' ≤ c && c ≤ 'Z') x = true := by
    intro x hx
    have hx2 := hU x (List.mem_reverse.mp hx)
    simp [hx2.1, hx2.2]
  have htw : (L.reverse ++ '(' :: p.reverse).takeWhile
      (fun c => 'A' ≤ c && c ≤ 'Z') = L.reverse := by
    rw [takeWhile_app_all _ hall, List.takeWhile_cons, if_neg (by decide)]
    simp
  have hdrop : (L.reverse ++ '(' :: p.reverse).drop L.reverse.length
      = '(' :: p.reverse := List.drop_left _ _
  simp [findRegion, hrev, htw, hdrop, List.length_reverse, h2, h6]

theorem findRegion_neg {p L : List Char}
    (hletters : ∀ c ∈ L, ('A' ≤ c ∧ c ≤ 'Z') ∨ ('a' ≤ c ∧ c ≤ 'z'))
    (hbad : (∃ c ∈ L, 'a' ≤ c ∧ c ≤ 'z') ∨ 6 < L.length) :
    findRegion (p ++ '(' :: L ++ [')']) = none := by
  have hrev : (p ++ '(' :: L ++ [')']).reverse
      = ')' :: (L.reverse ++ '(' :: p.reverse) := by simp
  by_cases hlow : ∃ c ∈ L, 'a' ≤ c ∧ c ≤ 'z'
  · obtain ⟨w, hw, hwl⟩ := hlow
    have hne : L.reverse.dropWhile (fun c => 'A' ≤ c && c ≤ 'Z') ≠ [] := by
      intro h0
      have h1 := List.dropWhile_eq_nil_iff.mp h0 w (List.mem_reverse.mpr hw)
      simp only [Bool.and_eq_true, decide_eq_true_eq] at h1
      exact absurd h1.2 (not_le.mpr (lt_of_lt_of_le (by decide) hwl.1))
    obtain ⟨h0, D', hD⟩ := List.exists_cons_of_ne_nil hne
    have hq0 := dropWhile_head_false hD
    have h0mem : h0 ∈ L.reverse :=
      dropWhile_subset' (hD ▸ List.mem_cons_self h0 D')
    have h0ne : ¬h0 = '(' := by
      rintro rfl
      rcases hletters '(' (List.mem_reverse.mp h0mem) with hc | hc
      · exact absurd hc.1 (by decide)
      · exact absurd hc.1 (by decide)
    have htw : (L.reverse ++ '(' :: p.reverse).takeWhile
        (fun c => 'A' ≤ c && c ≤ 'Z')
        = L.reverse.takeWhile (fun c => 'A' ≤ c && c ≤ 'Z') :=
      takeWhile_app_stop _ h0mem hq0
    have hLrev : L.reverse
        = L.reverse.takeWhile (fun c => 'A' ≤ c && c ≤ 'Z') ++ h0 :: D' := by
      conv_lhs => rw [← List.takeWhile_append_dropWhile
        (p := fun c => 'A' ≤ c && c ≤ 'Z') (l := L.reverse)]
      rw [hD]
    have hcomb : L.reverse ++ '(' :: p.reverse
        = L.reverse.takeWhile (fun c => 'A' ≤ c && c ≤ 'Z')
          ++ (h0 :: (D' ++ '(' :: p.reverse)) := by
      conv_lhs => rw [hLrev]
      rw [List.append_assoc, List.cons_append]
    have hdrop : (L.reverse ++ '(' :: p.reverse).drop
        (L.reverse.takeWhile (fun c => 'A' ≤ c && c ≤ 'Z')).length
        = h0 :: (D' ++ '(' :: p.reverse) := by
      rw [hcomb, List.drop_left]
    by_cases hlen : 2 ≤ (L.reverse.takeWhile
          (fun c => 'A' ≤ c && c ≤ 'Z')).length ∧
        (L.reverse.takeWhile (fun c => 'A' ≤ c && c ≤ 'Z')).length ≤ 6
    · simp [findRegion, hrev, htw, hdrop, hlen, h0ne]
    · simp [findRegion, hrev, htw, hlen]
  · have hup : ∀ c ∈ L, 'A' ≤ c ∧ c ≤ 'Z' := by
      intro c hc
      rcases hletters c hc with h | h
      · exact h
      · exact absurd ⟨c, hc, h⟩ hlow
    have hlen : 6 < L.length := by
              rcases hbad with h | h
              · exact absurd h hlow
              · exact h
    have hall : ∀ x ∈ L.reverse, (fun c => 'A' ≤ c && c ≤ 'Z') x = true := by
      intro x hx
      have hx2 := hup x (List.mem_reverse.mp hx)
      simp [hx2.1, hx2.2]
    have htw : (L.reverse ++ '(' :: p.reverse).takeWhile
        (fun c => 'A' ≤ c && c ≤ 'Z') = L.reverse := by
      rw [takeWhile_app_all _ hall, List.takeWhile_cons, if_neg (by decide)]
      simp
    have hcond : ¬(2 ≤ L.length ∧ L.length ≤ 6) := by omega
    simp [findRegion, hrev, htw, List.length_reverse, hcond]

/-- C6: on a source row without a discrete region field, if the trimmed
utility name ends in a parenthetical of 2-6 uppercase ASCII letters, the
Record Builder sets `region` to those letters and `utility_name` to the
prefix stripped of the parenthetical and surrounding whitespace; if the
trailing parenthetical consists of letters but contains a lowercase
letter or more than 6 letters, no extraction occurs: `region` stays
unset and `utility_name` keeps the trimmed raw value unchanged. -/
theorem C6_region_extraction (raw p L : List Char) :
    (trim raw = p ++ '(' :: L ++ [')'] →
      (∀ c ∈ L, 'A' ≤ c ∧ c ≤ 'Z') → 2 ≤ L.length → L.length ≤ 6 →
      parse_region_utility raw = (some L, some (trim p)))
    ∧ (trim raw = p ++ '(' :: L ++ [')'] →
      (∀ c ∈ L, ('A' ≤ c ∧ c ≤ 'Z') ∨ ('a' ≤ c ∧ c ≤ 'z')) →
      ((∃ c ∈ L, 'a' ≤ c ∧ c ≤ 'z') ∨ 6 < L.length) →
      parse_region_utility raw = (none, some (trim raw))) := by
  have hguard : trim raw = p ++ '(' :: L ++ [')'] →
      trim raw ≠ [] ∧ (trim raw).getLast? = some ')' := by
    intro h
    constructor
    · rw [h]
      simp
    · rw [h, show p ++ '(' :: L ++ [')'] = (p ++ '(' :: L) ++ [')'] from by
        simp]
      exact getLast?_append_singleton _ _
  constructor
  · intro htrim hU h2 h6
    have hfr : findRegion (trim raw) = some (p, L) := by
      rw [htrim]
      exact findRegion_pos hU h2 h6
    simp only [parse_region_utility]
    rw [if_pos (hguard htrim), hfr]
  · intro htrim hletters hbad
    have hfr : findRegion (trim raw) = none := by
      rw [htrim]
      exact findRegion_neg hletters hbad
    simp only [parse_region_utility]
    rw [if_pos (hguard htrim), hfr]

/-- Witness for C6 on the spec's three examples: "Big Co (ABCDE)" splits
into region "ABCDE" and utility "Big Co"; "Big Co (abcde)" and
"Big Co (ABCDEFG)" are left unchanged with no region. -/
theorem C6_region_extraction_witness :
    parse_region_utility "Big Co (ABCDE)".data
      = (some "ABCDE".data, some "Big Co".data) ∧
    parse_region_utility "Big Co (abcde)".data
      = (none, some "Big Co (abcde)".data) ∧
    parse_region_utility "Big Co (ABCDEFG)".data
      = (none, some "Big Co (ABCDEFG)".data) := by
  refine ⟨?_, ?_, ?_⟩
  · exact ((C6_region_extraction "Big Co (ABCDE)".data "Big Co ".data
      "ABCDE".data).1 (by decide) (by decide) (by decide) (by decide)).trans
      (by decide)
  · exact ((C6_region_extraction "Big Co (abcde)".data "Big Co ".data
      "abcde".data).2 (by decide) (by decide)
      (Or.inl (by decide))).trans (by decide)
  · exact ((C6_region_extraction "Big Co (ABCDEFG)".data "Big Co ".data
      "ABCDEFG".data).2 (by decide) (by decide)
      (Or.inr (by decide))).trans (by decide)

/-! ## Claim C2: phase lemmas -/

theorem startPhase_length (o1 : Nat → Option DateTime) :
    ∀ (i : Nat) (es : List PowerOutageEvent),
      (startPhase o1 i es).length = es.length := by
  intro i es
  induction es generalizing i with
  | nil => rfl
  | cons e es ih => simp [startPhase, ih]

theorem startPhase_get (o1 : Nat → Option DateTime) :
    ∀ (i : Nat) (es : List PowerOutageEvent) (j : Nat)
      (hj : j < es.length) (hj' : j < (startPhase o1 i es).length),
      (startPhase o1 i es).get ⟨j, hj'⟩
        = add_start_datetime (o1 (i + j)) (es.get ⟨j, hj⟩) := by
  intro i es
  induction es generalizing i with
  | nil =>
    intro j hj _
    exact absurd hj (Nat.not_lt_zero j)
  | cons e es ih =>
    intro j hj hj'
    cases j with
    | zero => rfl
    | succ j =>
      have h1 : j < es.length := Nat.succ_lt_succ_iff.mp hj
      have h2 : j < (startPhase o1 (i + 1) es).length := by
        rw [startPhase_length]
        exact h1
      have h3 := ih (i + 1) j h1 h2
      rw [show i + (j + 1) = (i + 1) + j from by omega]
      exact h3

theorem startPhase_mem (o1 : Nat → Option DateTime) :
    ∀ (i : Nat) (es : List PowerOutageEvent) (x : PowerOutageEvent),
      x ∈ startPhase o1 i es →
      ∃ k e, e ∈ es ∧ x = add_start_datetime (o1 k) e := by
  intro i es
  induction es generalizing i with
  | nil =>
    intro x hx
    cases hx
  | cons e es ih =>
    intro x hx
    rcases List.mem_cons.mp hx with rfl | hx2
    · exact ⟨i, e, by simp, rfl⟩
    · obtain ⟨k, e', he', hx3⟩ := ih (i + 1) x hx2
      exact ⟨k, e', by simp [he'], hx3⟩

theorem add_start_props (p : Option DateTime) (e : PowerOutageEvent) :
    sameNonDerived (add_start_datetime p e) e ∧
    (add_start_datetime p e).restored_datetime = e.restored_datetime ∧
    (add_start_datetime p e).duration_minutes = e.duration_minutes ∧
    (add_start_datetime p e).start_datetime = Option.or p e.start_datetime := by
  rcases p with _ | dt <;> simp [add_start_datetime, sameNonDerived, Option.or]

theorem restoredApply_props (q : Option DateTime) (e : PowerOutageEvent) :
    sameNonDerived (restoredApply q e) e ∧
    (restoredApply q e).start_datetime = e.start_datetime ∧
    (restoredApply q e).duration_minutes = e.duration_minutes := by
  rcases Option.eq_none_or_eq_some e.restoration_time with h0 | ⟨s, h0⟩
  · simp [restoredApply, h0, sameNonDerived]
  · rcases Option.eq_none_or_eq_some (check_for_na_value s) with hc | ⟨v, hc⟩
    · simp [restoredApply, h0, hc, sameNonDerived]
    · rcases q with _ | dt
      · simp [restoredApply, h0, hc, sameNonDerived]
      · simp [restoredApply, h0, hc, sameNonDerived]

theorem restoredApply_restored {e : PowerOutageEvent} {s : List Char}
    (q : Option DateTime) (hs : e.restoration_time = some s)
    (hns : check_for_na_value s ≠ none) :
    (restoredApply q e).restored_datetime = Option.or q e.restored_datetime := by
  obtain ⟨v, hv⟩ : ∃ v, check_for_na_value s = some v := by
    rcases Option.eq_none_or_eq_some (check_for_na_value s) with hc | ⟨v, hc⟩
    · exact absurd hc hns
    · exact ⟨v, hc⟩
  rcases q with _ | dt <;> simp [restoredApply, hs, hv, Option.or]

theorem get_duration_props (e : PowerOutageEvent) :
    sameNonDerived (get_duration_minutes e) e ∧
    (get_duration_minutes e).start_datetime = e.start_datetime ∧
    (get_duration_minutes e).restored_datetime = e.restored_datetime := by
  rcases Option.eq_none_or_eq_some e.start_datetime with h1 | ⟨s, h1⟩ <;>
    rcases Option.eq_none_or_eq_some e.restored_datetime with h2 | ⟨r, h2⟩ <;>
    simp [get_duration_minutes, h1, h2, sameNonDerived]

theorem sameNonDerived_trans {a b c : PowerOutageEvent}
    (h1 : sameNonDerived a b) (h2 : sameNonDerived b c) :
    sameNonDerived a c := by
  obtain ⟨a1, a2, a3, a4, a5, a6, a7, a8, a9⟩ := h1
  obtain ⟨b1, b2, b3, b4, b5, b6, b7, b8, b9⟩ := h2
  exact ⟨a1.trans b1, a2.trans b2, a3.trans b3, a4.trans b4, a5.trans b5,
    a6.trans b6, a7.trans b7, a8.trans b8, a9.trans b9⟩

theorem add_restored_ok {e : PowerOutageEvent} (p : Option DateTime)
    (h : e.restoration_time.isSome = true) :
    add_restored_datetime p e = Except.ok (restoredApply p e) := by
  rcases Option.eq_none_or_eq_some e.restoration_time with h0 | ⟨s, h0⟩
  · rw [h0] at h
    simp at h
  · rcases Option.eq_none_or_eq_some (check_for_na_value s) with hc | ⟨v, hc⟩
    · simp [add_restored_datetime, restoredApply, h0, hc]
    · rcases p with _ | dt <;>
        simp [add_restored_datetime, restoredApply, h0, hc]

theorem restorePhasePure_length (o2 : Nat → Option DateTime) :
    ∀ (i : Nat) (es : List PowerOutageEvent),
      (restorePhasePure o2 i es).length = es.length := by
  intro i es
  induction es generalizing i with
  | nil => rfl
  | cons e es ih => simp [restorePhasePure, ih]

theorem restorePhasePure_get (o2 : Nat → Option DateTime) :
    ∀ (i : Nat) (es : List PowerOutageEvent) (j : Nat)
      (hj : j < es.length) (hj' : j < (restorePhasePure o2 i es).length),
      (restorePhasePure o2 i es).get ⟨j, hj'⟩
        = restoredApply (o2 (i + j)) (es.get ⟨j, hj⟩) := by
  intro i es
  induction es generalizing i with
  | nil =>
    intro j hj _
    exact absurd hj (Nat.not_lt_zero j)
  | cons e es ih =>
    intro j hj hj'
    cases j with
    | zero => rfl
    | succ j =>
      have h1 : j < es.length := Nat.succ_lt_succ_iff.mp hj
      have h2 : j < (restorePhasePure o2 (i + 1) es).length := by
        rw [restorePhasePure_length]
        exact h1
      have h3 := ih (i + 1) j h1 h2
      rw [show i + (j + 1) = (i + 1) + j from by omega]
      exact h3

theorem restorePhase_ok (o2 : Nat → Option DateTime) :
    ∀ (i : Nat) (es : List PowerOutageEvent),
      (∀ e ∈ es, e.restoration_time.isSome = true) →
      restorePhase o2 i es = Except.ok (restorePhasePure o2 i es) := by
  intro i es
  induction es generalizing i with
  | nil => intro _; rfl
  | cons e es ih =>
    intro h
    simp only [restorePhase, restorePhasePure]
    rw [add_restored_ok _ (h e (by simp)),
      ih (i + 1) (fun x hx => h x (by simp [hx]))]
    rfl

/-- C2: for every record set whose records all carry a restoration-time
string (as every record built by the Record Builder does), the
Augmentation Stage returns exactly as many records as it was given; a
record whose inference call failed (unparseable/empty structured answer,
`none`) simply has the corresponding derived field left unset while
every other field of every record is untouched — no record is lost, no
failure aborts the phase or alters a sibling record.  The start-phase
and restoration-phase conclusions are pointwise iffs, so the number of
records with the field unset equals exactly the number of failing calls
of that phase. -/
theorem C2_augmentation_isolated (o1 o2 : Nat → Option DateTime)
    (data : List PowerOutageEvent)
    (hrt : ∀ e ∈ data, e.restoration_time.isSome = true) :
    ∃ out, augment_data_with_ai o1 o2 data = Except.ok out
      ∧ out.length = data.length
      ∧ (∀ (j : Nat) (hj : j < data.length) (hj' : j < out.length),
          sameNonDerived (out.get ⟨j, hj'⟩) (data.get ⟨j, hj⟩))
      ∧ (∀ (j : Nat) (hj : j < data.length) (hj' : j < out.length),
          (data.get ⟨j, hj⟩).start_datetime = none →
          ((out.get ⟨j, hj'⟩).start_datetime = none ↔ o1 j = none))
      ∧ (∀ (j : Nat) (hj : j < data.length) (hj' : j < out.length)
          (s : List Char),
          (data.get ⟨j, hj⟩).restored_datetime = none →
          (data.get ⟨j, hj⟩).restoration_time = some s →
          check_for_na_value s ≠ none →
          ((out.get ⟨j, hj'⟩).restored_datetime = none ↔ o2 j = none)) := by
  have hp1rt : ∀ e ∈ startPhase o1 0 data,
      e.restoration_time.isSome = true := by
    intro x hx
    obtain ⟨k, e, he, rfl⟩ := startPhase_mem o1 0 data x hx
    rw [(add_start_props (o1 k) e).1.2.2.1]
    exact hrt e he
  have hok := restorePhase_ok o2 0 (startPhase o1 0 data) hp1rt
  have hmain : augment_data_with_ai o1 o2 data
      = Except.ok ((restorePhasePure o2 0 (startPhase o1 0 data)).map
          get_duration_minutes) := by
    simp only [augment_data_with_ai]
    rw [hok]
    rfl
  have hlen : ((restorePhasePure o2 0 (startPhase o1 0 data)).map
      get_duration_minutes).length = data.length := by
    rw [List.length_map, restorePhasePure_length, startPhase_length]
  have hget : ∀ (j : Nat) (hj : j < data.length)
      (hj' : j < ((restorePhasePure o2 0 (startPhase o1 0 data)).map
        get_duration_minutes).length),
      ((restorePhasePure o2 0 (startPhase o1 0 data)).map
        get_duration_minutes).get ⟨j, hj'⟩
      = get_duration_minutes (restoredApply (o2 j)
          (add_start_datetime (o1 j) (data.get ⟨j, hj⟩))) := by
    intro j hj hj'
    have hjp : j < (startPhase o1 0 data).length := by
      rw [startPhase_length]
      exact hj
    have hjr : j < (restorePhasePure o2 0 (startPhase o1 0 data)).length := by
      rw [restorePhasePure_length]
      exact hjp
    rw [List.get_map]
    congr 1
    rw [restorePhasePure_get o2 0 _ j hjp, startPhase_get o1 0 data j hj hjp]
    simp only [Nat.zero_add]
  refine ⟨_, hmain, hlen, ?_, ?_, ?_⟩
  · intro j hj hj'
    rw [hget j hj hj']
    exact sameNonDerived_trans (get_duration_props _).1
      (sameNonDerived_trans (restoredApply_props _ _).1 (add_start_props _ _).1)
  · intro j hj hj' hstart
    rw [hget j hj hj', (get_duration_props _).2.1,
      (restoredApply_props _ _).2.1, (add_start_props _ _).2.2.2, hstart]
    rcases o1 j with _ | dt <;> simp [Option.or]
  · intro j hj hj' s hrest hrt2 hns
    rw [hget j hj hj', (get_duration_props _).2.2]
    have he' : (add_start_datetime (o1 j) (data.get ⟨j, hj⟩)).restoration_time
        = some s := by
      rw [(add_start_props _ _).1.2.2.1]
      exact hrt2
    rw [restoredApply_restored (o2 j) he' hns, (add_start_props _ _).2.1,
      hrest]
    rcases o2 j with _ | dt <;> simp [Option.or]

/-- Witness for C2: two records (one with a sentinel restoration time,
one with a real one), the first start-phase call succeeding and the
second failing, still yield exactly two records. -/
theorem C2_augmentation_isolated_witness :
    ∃ out, augment_data_with_ai
        (fun i => if i = 0 then some ⟨2020, 6, 1, 8, 0, 0⟩ else none)
        (fun _ => some ⟨2020, 6, 2, 6, 0, 0⟩)
        [{ date := "6/1/20".data, outage_type := "X".data,
           restoration_time := some "n/a".data },
         { date := "6/1/20".data, outage_type := "Y".data,
           restoration_time := some "6:00 a.m. June 2".data }]
      = Except.ok out ∧ out.length = 2 := by
  obtain ⟨out, h1, h2, -, -, -⟩ := C2_augmentation_isolated
    (fun i => if i = 0 then some ⟨2020, 6, 1, 8, 0, 0⟩ else none)
    (fun _ => some ⟨2020, 6, 2, 6, 0, 0⟩)
    [{ date := "6/1/20".data, outage_type := "X".data,
       restoration_time := some "n/a".data },
     { date := "6/1/20".data, outage_type := "Y".data,
       restoration_time := some "6:00 a.m. June 2".data }]
    (by decide)
  exact ⟨out, h1, h2.trans rfl⟩
